import Mathlib

/-!
Shallow embedding of the hippocampal-memory-mcp graph engine.

Sources embedded here:
* `src/claude-memory.cypher` — schema (uniqueness constraints) and the stdio
  MCP server: `handleEncodeMemory`, `handleRecallMemory`, `handleEvolveBond`.
* `src/unnamed/part_007` (hippocampus-extension.mjs): `handleWriteEvent`,
  `handleSearchEvents`.

Modelling conventions:
* Machine floats become `ℚ`; datetimes become `ℕ` ordinals (a `now` parameter
  stands for `datetime()` / `new Date()`).
* Neo4j node stores are plain lists; `MERGE` is "append if no match", `CREATE`
  always appends.  The `event_id` uniqueness constraint that the schema file
  declares (and `setup-vector-index.mjs` re-asserts) is modelled: `CREATE` of
  an Event with an existing id fails the transaction.
* An Effect occurrence node is created in one statement together with its
  `HAD_EFFECT_ON` and `WITH_RESPECT_TO` edges and is never matched elsewhere
  by the write path, so each occurrence is modelled as one flat record.
* JavaScript `x || y` truthiness on parameters is modelled explicitly
  (`0`, `""`, `null`, `undefined` are falsy).
-/

/-- JS `s || null` for an optional string: the empty string is falsy. -/
def jsOrNullStr (o : Option String) : Option String :=
  match o with
  | some s => if s = "" then none else some s
  | none => none

/-- JS `q || null` for an optional rational: `0` is falsy. -/
def jsOrNullQ (o : Option ℚ) : Option ℚ :=
  match o with
  | some q => if q = 0 then none else some q
  | none => none

/-- One entry of a BOND's `evolution_trajectory`.  The `ON CREATE` snapshot
carries no `emotional_resonance` key; we model the absent key as `none`. -/
structure Snapshot where
  timestamp : ℕ
  strength : ℚ
  resonance : Option ℚ
  context : Option String
deriving Repr, DecidableEq

/-- The property bag of a `BOND` relationship (schema lines 54-63 of
`claude-memory.cypher`). -/
structure Bond where
  strength : ℚ
  emotional_resonance : Option ℚ
  interaction_count : ℕ
  first_interaction : ℕ
  last_interaction : ℕ
  milestones : List String
  evolution_trajectory : List Snapshot
deriving Repr, DecidableEq

/-- A directed BOND edge between two nodes, keyed by node id. -/
structure BondEdge where
  fromId : String
  toId : String
  bond : Bond
deriving Repr, DecidableEq

/-- An `Event` node.  The two write pipelines populate different optional
property sets on the same label: `handleEncodeMemory` sets
`timestamp/type/emotional_valence/significance/context_summary/...`,
`handleWriteEvent` sets `happened_at/title/description`. -/
structure EventNode where
  id : String
  timestamp : Option ℕ
  type : Option String
  emotional_valence : Option ℚ
  significance : Option ℚ
  context_summary : Option String
  full_content : Option String
  glyph_encoding : Option String
  embedding : Option (List ℚ)
  happened_at : Option ℕ
  title : Option String
  description : Option String
deriving Repr, DecidableEq

/-- An `Entity` node of the biomimetic schema (id-keyed). -/
structure EntityNode where
  id : String
  name : String
  kind : String
  meta : Option String
deriving Repr, DecidableEq

/-- An Effect occurrence: the fresh `Effect` node together with its
`HAD_EFFECT_ON` source event and `WITH_RESPECT_TO` target. -/
structure EffectOcc where
  eventId : String
  summary : String
  valence : String
  intensity : ℚ
  targetId : String
  targetKind : String
deriving Repr, DecidableEq

/-- `INVOLVES` edge (memory schema): Event → entity with role/salience. -/
structure InvolvesEdge where
  eventId : String
  entityId : String
  role : String
  salience : ℚ
deriving Repr, DecidableEq

/-- `PRECEDED` edge: earlier Event → later Event, fixed causal strength 0.8. -/
structure PrecededEdge where
  fromId : String
  toId : String
  causal_strength : ℚ
deriving Repr, DecidableEq

/-- `CONSOLIDATED_TO` edge: Event → target node. -/
structure ConsolidatedEdge where
  eventId : String
  targetId : String
  strength : ℚ
  consolidation_type : String
  rehearsal_count : ℕ
deriving Repr, DecidableEq

/-- A node of the original memory schema reachable only by id
(Person/Project/Concept created outside the embedded handlers). -/
structure OtherNode where
  id : String
  name : Option String
deriving Repr, DecidableEq

/-- The whole graph-store state touched by the embedded handlers. -/
structure Graph where
  events : List EventNode
  persons : List String                    -- Person, keyed by name
  agents : List String                     -- Agent, keyed by id
  entities : List EntityNode               -- Entity, keyed by id
  places : List String                     -- Place, keyed by name
  catalysts : List String                  -- Catalyst, keyed by description
  targets : List (String × String)         -- Target, keyed by (id, kind)
  effects : List EffectOcc
  others : List OtherNode
  participatedPersons : List (String × String)  -- (person name, event id)
  participatedAgents : List (String × String)   -- (agent id, event id)
  involvedIn : List (String × String)           -- (entity id, event id)
  producedE : List (String × String)            -- (event id, entity id)
  heldAt : List (String × String)               -- (event id, place name)
  catalyzedBy : List (String × String)          -- (event id, catalyst descr)
  involvesEdges : List InvolvesEdge
  precededEdges : List PrecededEdge
  consolidatedEdges : List ConsolidatedEdge
  bonds : List BondEdge
deriving Repr, DecidableEq

def Graph.empty : Graph :=
  ⟨[], [], [], [], [], [], [], [], [], [], [], [], [], [], [], [], [], [], []⟩

/-- How many nodes a label-free `MATCH (n {id: $x})` binds: any node kind
that carries an `id` property (Events, Agents, Entities, Targets, and the
Person/Project/Concept nodes of the original schema). -/
def Graph.resolveCount (g : Graph) (i : String) : ℕ :=
  (g.events.filter (fun e => e.id = i)).length +
  (g.agents.filter (fun a => a = i)).length +
  (g.entities.filter (fun e => e.id = i)).length +
  (g.targets.filter (fun t => t.1 = i)).length +
  (g.others.filter (fun o => o.id = i)).length

/-- `MERGE` for a list-backed node store keyed by the whole element. -/
def mergeNode [DecidableEq α] (l : List α) (a : α) : List α :=
  if a ∈ l then l else l ++ [a]

/-! ### `handleEvolveBond` (`src/claude-memory.cypher` lines 845-935) -/

/-- Arguments of the `evolve_bond` tool. -/
structure EvolveBondArgs where
  from_entity_id : String
  to_entity_id : String
  new_strength : ℚ
  emotional_resonance : Option ℚ
  milestone : Option String
  interaction_context : Option String
deriving Repr, DecidableEq

/-- `ON CREATE SET` branch of the bond `MERGE`. -/
def bondOnCreate (a : EvolveBondArgs) (now : ℕ) : Bond :=
  let reso := jsOrNullQ a.emotional_resonance      -- $emotionalResonance param
  let mile := jsOrNullStr a.milestone              -- $milestone param
  let ctx := jsOrNullStr a.interaction_context     -- $context param
  { strength := a.new_strength
    emotional_resonance := reso
    interaction_count := 1
    first_interaction := now
    last_interaction := now
    milestones := match mile with | some m => [m] | none => []
    evolution_trajectory := [⟨now, a.new_strength, none, ctx⟩] }

/-- `ON MATCH SET` branch of the bond `MERGE`. -/
def bondOnMatch (b : Bond) (a : EvolveBondArgs) (now : ℕ) : Bond :=
  let reso := jsOrNullQ a.emotional_resonance
  let mile := jsOrNullStr a.milestone
  let ctx := jsOrNullStr a.interaction_context
  { strength := a.new_strength
    emotional_resonance := match reso with | some r => some r | none => b.emotional_resonance
    interaction_count := b.interaction_count + 1
    first_interaction := b.first_interaction
    last_interaction := now
    milestones := match mile with | some m => b.milestones ++ [m] | none => b.milestones
    evolution_trajectory := b.evolution_trajectory ++ [⟨now, a.new_strength, reso, ctx⟩] }

/-- `handleEvolveBond`: `MATCH (from {id}) MATCH (to {id}) MERGE
(from)-[b:BOND]->(to) ON CREATE ... ON MATCH ...`.  If either endpoint does
not resolve the statement binds no row, nothing is written, and the handler
then fails reading `result.records[0]`.  No range validation is performed on
`new_strength` or `emotional_resonance`. -/
def evolveBond (a : EvolveBondArgs) (now : ℕ) (g : Graph) :
    Except String Graph :=
  if g.resolveCount a.from_entity_id = 0 ∨ g.resolveCount a.to_entity_id = 0 then
    .error "no record"
  else if (g.bonds.filter
      (fun be => be.fromId = a.from_entity_id ∧ be.toId = a.to_entity_id)).isEmpty then
    .ok { g with bonds :=
      g.bonds ++ [⟨a.from_entity_id, a.to_entity_id, bondOnCreate a now⟩] }
  else
    .ok { g with bonds := g.bonds.map (fun be =>
      if be.fromId = a.from_entity_id ∧ be.toId = a.to_entity_id then
        ⟨be.fromId, be.toId, bondOnMatch be.bond a now⟩
      else be) }

/-! ### `handleEncodeMemory` (`src/claude-memory.cypher` lines 488-659) -/

/-- Observable database/provider effects a handler performs, in order.
`session.beginTransaction()` is `txBegin`; the embedding round-trip is
`embedCall`; `txRun` stands for the batch of `tx.run` statements. -/
inductive DbOp
  | txBegin | embedCall | txRun | txCommit | txRollback | sessionClose
deriving Repr, DecidableEq

/-- What a handler call leaves behind: its effect trace, whether it reported
success, the error message if any, and the graph as other readers see it
after the handler returns (the transaction wrapper has been committed or
rolled back). -/
structure HandlerOutcome where
  trace : List DbOp
  ok : Bool
  err : Option String
  graph : Graph
deriving Repr, DecidableEq

/-- One element of `encode_memory`'s `involves` array. -/
structure InvolveRef where
  entity_id : String
  role : String
  salience : ℚ
deriving Repr, DecidableEq

/-- One element of `encode_memory`'s `consolidates_to` array. -/
structure ConsolidateRef where
  target_id : String
  strength : ℚ
  ctype : String
deriving Repr, DecidableEq

/-- The `event` payload of `encode_memory`. -/
structure EncodeEventArgs where
  type : String
  timestamp : Option ℕ := none
  emotional_valence : ℚ
  significance : ℚ
  context_summary : String
  full_content : Option String := none
  glyph : Option String := none
deriving Repr, DecidableEq

/-- Arguments of the `encode_memory` tool. -/
structure EncodeArgs where
  event : EncodeEventArgs
  involves : List InvolveRef := []
  precedes : List String := []
  consolidates_to : List ConsolidateRef := []
deriving Repr, DecidableEq

/-- `event.full_content ? summary + "\n\n" + full_content : summary`. -/
def embeddingText (e : EncodeEventArgs) : String :=
  match jsOrNullStr e.full_content with
  | some fc => e.context_summary ++ "\n\n" ++ fc
  | none => e.context_summary

/-- The Event node `handleEncodeMemory` creates. -/
def encEventNode (emb : List ℚ) (newId : String) (now : ℕ)
    (e : EncodeEventArgs) : EventNode :=
  { id := newId
    timestamp := some (e.timestamp.getD now)
    type := some e.type
    emotional_valence := some e.emotional_valence
    significance := some e.significance
    context_summary := some e.context_summary
    full_content := jsOrNullStr e.full_content
    glyph_encoding := jsOrNullStr e.glyph
    embedding := some emb
    happened_at := none
    title := none
    description := none }

/-- One iteration of the `INVOLVES` loop: `MATCH (e:Event {id}) MATCH
(entity {id: $entityId}) CREATE (e)-[:INVOLVES {...}]->(entity)` — one edge
per node the label-free `MATCH` binds (zero edges, silently, if none). -/
def encStepInvolves (newId : String) (h : Graph) (r : InvolveRef) : Graph :=
  { h with involvesEdges := h.involvesEdges ++
      (List.replicate (h.resolveCount r.entity_id)
        ⟨newId, r.entity_id, r.role, r.salience⟩) }

/-- One iteration of the `PRECEDED` loop (matches `e1:Event` by label). -/
def encStepPreceded (newId : String) (h : Graph) (pid : String) : Graph :=
  { h with precededEdges := h.precededEdges ++
      (List.replicate (h.events.filter (fun e => e.id = pid)).length
        ⟨pid, newId, Rat.divInt 4 5⟩) }

/-- One iteration of the `CONSOLIDATED_TO` loop (label-free target match). -/
def encStepConsolidated (newId : String) (h : Graph) (c : ConsolidateRef) :
    Graph :=
  { h with consolidatedEdges := h.consolidatedEdges ++
      (List.replicate (h.resolveCount c.target_id)
        ⟨newId, c.target_id, c.strength, c.ctype, 1⟩) }

/-- The transaction body of `handleEncodeMemory` on the tx-local graph:
create the Event node (the `event_id` uniqueness constraint can fail it),
then for each reference run `MATCH`+`CREATE`; a `MATCH` on an id that binds
no node makes the `CREATE` run zero times — silently, with no error. -/
def encG1 (emb : List ℚ) (newId : String) (now : ℕ) (a : EncodeArgs)
    (g : Graph) : Graph :=
  { g with events := g.events ++ [encEventNode emb newId now a.event] }

/-- The graph after all create/bind steps of `handleEncodeMemory` ran. -/
def encApply (emb : List ℚ) (newId : String) (now : ℕ) (a : EncodeArgs)
    (g : Graph) : Graph :=
  a.consolidates_to.foldl (encStepConsolidated newId)
    (a.precedes.foldl (encStepPreceded newId)
      (a.involves.foldl (encStepInvolves newId) (encG1 emb newId now a g)))

def encodeTxBody (emb : List ℚ) (newId : String) (now : ℕ) (a : EncodeArgs)
    (g : Graph) : Except String Graph :=
  if (g.events.filter (fun e => e.id = newId)).isEmpty then
    .ok (encApply emb newId now a g)
  else .error "event id uniqueness constraint violated"

/-- `handleEncodeMemory`.  Source order: the session and transaction are
opened first, then the two range validations run, then the embedding is
generated, then the transaction body executes and is committed; any thrown
error rolls the transaction back, leaving the graph exactly as it was. -/
def encodeMemory (embed : String → Option (List ℚ)) (newId : String)
    (now : ℕ) (a : EncodeArgs) (g : Graph) : HandlerOutcome :=
  if a.event.emotional_valence < -1 ∨ 1 < a.event.emotional_valence then
    ⟨[.txBegin, .txRollback, .sessionClose], false,
      some "emotional_valence must be between -1.0 and 1.0", g⟩
  else if a.event.significance < 0 ∨ 1 < a.event.significance then
    ⟨[.txBegin, .txRollback, .sessionClose], false,
      some "significance must be between 0.0 and 1.0", g⟩
  else
    match embed (embeddingText a.event) with
    | none =>
        ⟨[.txBegin, .embedCall, .txRollback, .sessionClose], false,
          some "embedding provider error", g⟩
    | some emb =>
        match encodeTxBody emb newId now a g with
        | .ok g' =>
            ⟨[.txBegin, .embedCall, .txRun, .txCommit, .sessionClose],
              true, none, g'⟩
        | .error e =>
            ⟨[.txBegin, .embedCall, .txRun, .txRollback, .sessionClose],
              false, some e, g⟩

/-! ### `handleWriteEvent` (`src/unnamed/part_007` lines 219-394) -/

/-- One entry of the `who` array. -/
structure WhoRef where
  id : String
  type : String
deriving Repr, DecidableEq

/-- One entry of `what_entities` / `what_produced`. -/
structure EntityRef where
  id : String
  name : String
  kind : String
  meta : Option String := none
deriving Repr, DecidableEq

/-- One entry of the `effects` array. -/
structure EffectArg where
  summary : String
  valence : String
  intensity : ℚ
  target_id : String
  target_kind : String
deriving Repr, DecidableEq

/-- The `event` payload of `hippocampus_write_event`. -/
structure WriteEventArgs where
  id : Option String := none
  title : String
  description : String
  happened_at : Option ℕ := none
  who : List WhoRef := []
  why : List String := []
  what_entities : List EntityRef := []
  what_produced : List EntityRef := []
  «where» : Option String := none
  effects : List EffectArg := []
deriving Repr, DecidableEq

/-- `MERGE (ent:Entity {id: $entityId}) ON CREATE SET ent.name, ent.kind,
ent.meta`: matched by id alone; properties are set only when created. -/
def mergeEntity (l : List EntityNode) (r : EntityRef) : List EntityNode :=
  if (l.filter (fun e => e.id = r.id)).isEmpty then
    l ++ [⟨r.id, r.name, r.kind, jsOrNullStr r.meta⟩]
  else l

/-- The Event node `handleWriteEvent` creates. -/
def hipEventNode (eventId : String) (happenedAt : ℕ) (a : WriteEventArgs) :
    EventNode :=
  { id := eventId
    timestamp := none, type := none, emotional_valence := none
    significance := none, context_summary := none, full_content := none
    glyph_encoding := none, embedding := none
    happened_at := some happenedAt
    title := some a.title
    description := some a.description }

/-- WHERE block: `MERGE (p:Place {name}) MERGE (e)-[:HELD_AT]->(p)`,
guarded by `if (event.where)`. -/
def writeStepPlace (eventId : String) (w : Option String) (h : Graph) : Graph :=
  match jsOrNullStr w with
  | some p =>
      { h with places := mergeNode h.places p
               heldAt := mergeNode h.heldAt (eventId, p) }
  | none => h

/-- WHO block, one participant: persons merge by name, agents by id; any
other `type` value is silently skipped by the `if`/`else if`. -/
def writeStepWho (eventId : String) (h : Graph) (p : WhoRef) : Graph :=
  if p.type = "person" then
    { h with persons := mergeNode h.persons p.id
             participatedPersons := mergeNode h.participatedPersons (p.id, eventId) }
  else if p.type = "agent" then
    { h with agents := mergeNode h.agents p.id
             participatedAgents := mergeNode h.participatedAgents (p.id, eventId) }
  else h

/-- WHY block, one catalyst: `MERGE (c:Catalyst {description})`. -/
def writeStepWhy (eventId : String) (h : Graph) (r : String) : Graph :=
  { h with catalysts := mergeNode h.catalysts r
           catalyzedBy := mergeNode h.catalyzedBy (eventId, r) }

/-- WHAT block, one involved entity. -/
def writeStepEntity (eventId : String) (h : Graph) (r : EntityRef) : Graph :=
  { h with entities := mergeEntity h.entities r
           involvedIn := mergeNode h.involvedIn (r.id, eventId) }

/-- WHAT block, one produced entity. -/
def writeStepProduced (eventId : String) (h : Graph) (r : EntityRef) : Graph :=
  { h with entities := mergeEntity h.entities r
           producedE := mergeNode h.producedE (eventId, r.id) }

/-- EFFECTS block, one effect: the Target is `MERGE`d, the Effect node is
`CREATE`d fresh every time. -/
def writeStepEffect (eventId : String) (h : Graph) (f : EffectArg) : Graph :=
  { h with targets := mergeNode h.targets (f.target_id, f.target_kind)
           effects := h.effects ++
             [⟨eventId, f.summary, f.valence, f.intensity,
               f.target_id, f.target_kind⟩] }

/-- CREATE Event: the first statement of `handleWriteEvent`'s transaction. -/
def weG1 (eventId : String) (happenedAt : ℕ) (a : WriteEventArgs)
    (g : Graph) : Graph :=
  { g with events := g.events ++ [hipEventNode eventId happenedAt a] }

/-- After the WHERE block. -/
def weG2 (eventId : String) (happenedAt : ℕ) (a : WriteEventArgs)
    (g : Graph) : Graph :=
  writeStepPlace eventId a.«where» (weG1 eventId happenedAt a g)

/-- After the WHO block. -/
def weG3 (eventId : String) (happenedAt : ℕ) (a : WriteEventArgs)
    (g : Graph) : Graph :=
  a.who.foldl (writeStepWho eventId) (weG2 eventId happenedAt a g)

/-- After the WHY block. -/
def weG4 (eventId : String) (happenedAt : ℕ) (a : WriteEventArgs)
    (g : Graph) : Graph :=
  a.why.foldl (writeStepWhy eventId) (weG3 eventId happenedAt a g)

/-- After the WHAT-entities block. -/
def weG5 (eventId : String) (happenedAt : ℕ) (a : WriteEventArgs)
    (g : Graph) : Graph :=
  a.what_entities.foldl (writeStepEntity eventId) (weG4 eventId happenedAt a g)

/-- After the WHAT-produced block. -/
def weG6 (eventId : String) (happenedAt : ℕ) (a : WriteEventArgs)
    (g : Graph) : Graph :=
  a.what_produced.foldl (writeStepProduced eventId) (weG5 eventId happenedAt a g)

/-- The graph after all blocks of `handleWriteEvent` ran, in source order:
CREATE Event; WHERE (Place); WHO (Person/Agent); WHY (Catalyst);
WHAT entities; WHAT produced; EFFECTS.  Reference nodes are `MERGE`d,
the Event and each Effect are `CREATE`d fresh. -/
def weApply (eventId : String) (happenedAt : ℕ) (a : WriteEventArgs)
    (g : Graph) : Graph :=
  a.effects.foldl (writeStepEffect eventId) (weG6 eventId happenedAt a g)

/-- Transaction body of `handleWriteEvent`: the `event_id` uniqueness
constraint can fail the Event `CREATE`; otherwise all blocks run. -/
def writeEventTxBody (eventId : String) (happenedAt : ℕ) (a : WriteEventArgs)
    (g : Graph) : Except String Graph :=
  if (g.events.filter (fun e => e.id = eventId)).isEmpty then
    .ok (weApply eventId happenedAt a g)
  else .error "event id uniqueness constraint violated"

/-- The effective event id: `event.id || generated`. -/
def weEventId (a : WriteEventArgs) (genId : String) : String :=
  (jsOrNullStr a.id).getD genId

/-- `handleWriteEvent`: generate the id when absent/empty, default the
timestamp, run the transaction body, commit or roll back.  No numeric
validation is performed on effect `intensity`. -/
def writeEvent (genId : String) (now : ℕ) (a : WriteEventArgs) (g : Graph) :
    HandlerOutcome :=
  let eventId := weEventId a genId
  let happenedAt := a.happened_at.getD now
  match writeEventTxBody eventId happenedAt a g with
  | .ok g' => ⟨[.txBegin, .txRun, .txCommit, .sessionClose], true, none, g'⟩
  | .error e => ⟨[.txBegin, .txRun, .txRollback, .sessionClose], false, some e, g⟩

/-! ### `handleRecallMemory` — ranking (`src/claude-memory.cypher` 661-803) -/

/-- One ranked row of `recall_memory`: the Event with the vector-similarity
`score` it entered with and its stored `significance`. -/
structure Candidate where
  id : String
  score : ℚ
  significance : ℚ
deriving Repr, DecidableEq

/-- `WITH e, score, (score * 0.7 + e.significance * 0.3) AS final_score`. -/
def finalScore (c : Candidate) : ℚ :=
  c.score * (7/10) + c.significance * (3/10)

/-- `ORDER BY final_score DESC`: row `a` may come before row `b`. -/
def candLe (a b : Candidate) : Prop := finalScore b ≤ finalScore a

instance : DecidableRel candLe :=
  fun a b => inferInstanceAs (Decidable (finalScore b ≤ finalScore a))

instance : IsTotal Candidate candLe :=
  ⟨fun a b => le_total (finalScore b) (finalScore a)⟩

instance : IsTrans Candidate candLe :=
  ⟨fun _ _ _ hab hbc => le_trans hbc hab⟩

/-- `ORDER BY final_score DESC LIMIT $limit` over the candidate rows. -/
def rankMemories (cs : List Candidate) (limit : ℕ) : List Candidate :=
  (List.insertionSort candLe cs).take limit

/-- The no-query candidate set: `MATCH (e:Event) WITH e, 0.5 AS score` —
every Event enters with the same neutral baseline score.  Events written by
`encode_memory` always carry a `significance` property. -/
def noQueryCandidates (g : Graph) : List Candidate :=
  g.events.filterMap (fun e => e.significance.map (fun s => ⟨e.id, 1/2, s⟩))

/-- `const { ..., limit = 10 } = args` in `handleRecallMemory`: the default
applies only when the argument is absent; no clamping is performed. -/
def recallLimit (o : Option ℕ) : ℕ := o.getD 10

/-- `params.limit = parseInt(limit) || 10` in `handleSearchEvents`: `0`
falls back to 10 by JS truthiness; other values pass through unclamped. -/
def searchLimit (o : Option ℕ) : ℕ :=
  match o with
  | none => 10
  | some 0 => 10
  | some n => n

/-- `recall_memory` without a query string and without filters. -/
def recallMemoryNoQuery (g : Graph) (limitArg : Option ℕ) : List Candidate :=
  rankMemories (noQueryCandidates g) (recallLimit limitArg)

/-! ### The dynamically assembled Cypher of both retrieval handlers,
at clause granularity.  `handleRecallMemory` and `handleSearchEvents`
concatenate clause fragments into one query string; we record the clause
kind sequence of that string. -/

/-- Top-level Cypher clause kinds appearing in the assembled queries. -/
inductive Clause
  | callYield   -- CALL db.index.vector.queryNodes(...) YIELD node AS e, score
  | matchC      -- MATCH ...
  | optMatchC   -- OPTIONAL MATCH ...
  | withC       -- WITH ...
  | whereC      -- WHERE ...
  | returnC     -- RETURN ... ORDER BY ... LIMIT ...
deriving Repr, DecidableEq

/-- Which structured filters a `recall_memory` call supplies (an array
filter counts only when non-empty, as in the source's length checks). -/
structure RecallFilters where
  query : Bool
  emotional_range : Bool
  temporal_range : Bool
  significance_threshold : Bool
  event_types : Bool
  involves_entities : Bool
  include_consolidations : Bool
deriving Repr, DecidableEq

/-- Clause sequence of the query `handleRecallMemory` assembles: start
fragment, then the `involves_entities` join fragment, then one `WHERE`
holding all accumulated scalar predicates, then the `final_score`
projection, the optional consolidation fragment, and the `RETURN`. -/
def recallQueryClauses (f : RecallFilters) : List Clause :=
  (if f.query then [.callYield] else [.matchC, .withC]) ++
  (if f.involves_entities then [.withC, .matchC, .whereC] else []) ++
  (if f.emotional_range || f.temporal_range ||
      f.significance_threshold || f.event_types then [.whereC] else []) ++
  [.withC] ++
  (if f.include_consolidations then [.optMatchC, .withC] else []) ++
  [.returnC]

/-- Which filters a `hippocampus_search_events` call supplies. -/
structure SearchFilters where
  time_range : Bool
  participants : Bool
  entities : Bool
  place : Bool
  effects_on : Bool
  min_effect_intensity : Bool
deriving Repr, DecidableEq

/-- Clause sequence of the query `handleSearchEvents` assembles: the
participant/entity/intensity join fragments each end in their own `WHERE`;
the temporal/place/effects predicates are joined into one `WHERE` appended
after all fragments; then `WITH DISTINCT e`, six `OPTIONAL MATCH`es and the
`RETURN`. -/
def searchQueryClauses (f : SearchFilters) : List Clause :=
  [.matchC] ++
  (if f.participants then [.withC, .matchC, .whereC] else []) ++
  (if f.entities then [.withC, .matchC, .whereC] else []) ++
  (if f.min_effect_intensity then [.withC, .matchC, .whereC] else []) ++
  (if f.time_range || f.place || f.effects_on then [.whereC] else []) ++
  [.withC] ++ List.replicate 6 .optMatchC ++ [.returnC]

/-- A `WHERE` is a subclause: it may only directly follow a `MATCH`,
`OPTIONAL MATCH`, `WITH`, or `CALL ... YIELD`. -/
def clauseAllowsWhere : Clause → Bool
  | .matchC | .withC | .optMatchC | .callYield => true
  | _ => false

/-- Whether every `WHERE` in the tail attaches to a legal preceding
clause — in particular a `WHERE` directly after another `WHERE` is a
Cypher syntax error. -/
def cypherChain (prev : Clause) : List Clause → Bool
  | [] => true
  | c :: rest =>
      (if c = .whereC then clauseAllowsWhere prev else true) && cypherChain c rest

/-- Syntactic well-formedness of a clause sequence with respect to `WHERE`
placement. -/
def cypherValid : List Clause → Bool
  | [] => true
  | .whereC :: _ => false
  | c :: rest => cypherChain c rest

/-! ### `handleSearchEvents` — zero-filter semantics (`src/unnamed/part_007`
lines 543-587): pattern-completion projection, ordering and truncation. -/

/-- `ORDER BY e.happened_at DESC` sort key; Neo4j places `null` first in
descending order, so a missing `happened_at` is the top element. -/
def eventKey (e : EventNode) : WithTop ℕ :=
  match e.happened_at with
  | some n => (n : WithTop ℕ)
  | none => ⊤

/-- One aggregation row: grouped by the Event and its `place.name` value. -/
structure SearchRow where
  event : EventNode
  place : Option String
deriving Repr, DecidableEq

/-- The distinct `place.name` values bound to an event via `HELD_AT`. -/
def Graph.placesOf (g : Graph) (eid : String) : List String :=
  ((g.heldAt.filter (fun pr => pr.1 = eid)).map Prod.snd).dedup

/-- Aggregation rows an event contributes: `place.name` is a grouping key
(not aggregated), so an event yields one row per distinct bound place, and
one row with `null` place when it has none. -/
def searchRowsOf (g : Graph) (e : EventNode) : List SearchRow :=
  match g.placesOf e.id with
  | [] => [⟨e, none⟩]
  | ps => ps.map (fun p => ⟨e, some p⟩)

/-- All aggregation rows of the zero-filter query `MATCH (e:Event) WITH
DISTINCT e OPTIONAL MATCH ... RETURN ... collect(DISTINCT ...)`. -/
def searchRows (g : Graph) : List SearchRow :=
  g.events.flatMap (searchRowsOf g)

/-- `ORDER BY e.happened_at DESC`: row `a` may come before row `b`. -/
def rowLe (a b : SearchRow) : Prop := eventKey b.event ≤ eventKey a.event

instance : DecidableRel rowLe :=
  fun a b => inferInstanceAs (Decidable (eventKey b.event ≤ eventKey a.event))

instance : IsTotal SearchRow rowLe :=
  ⟨fun a b => le_total (eventKey b.event) (eventKey a.event)⟩

instance : IsTrans SearchRow rowLe :=
  ⟨fun _ _ _ hab hbc => le_trans hbc hab⟩

/-- One fully reconstructed episode as returned to the caller (after the
JS `.filter(x => x)` passes that drop `null`/empty collected values). -/
structure EventView where
  id : String
  title : Option String
  description : Option String
  whenAt : Option ℕ
  people : List String
  agents : List String
  what : List String
  whereName : Option String
  why : List String
  effects : List (String × String × ℚ × String)
deriving Repr, DecidableEq

/-- `entity.name` of the Entity node bound to an id, if any. -/
def Graph.entityName (g : Graph) (i : String) : Option String :=
  ((g.entities.filter (fun en => en.id = i)).head?).map (fun en => en.name)

/-- The `RETURN` projection of one aggregation row: every collected list is
`DISTINCT` in Cypher and then filtered for truthiness in JS. -/
def projectEvent (g : Graph) (r : SearchRow) : EventView :=
  { id := r.event.id
    title := r.event.title
    description := r.event.description
    whenAt := r.event.happened_at
    people := (((g.participatedPersons.filter
        (fun pr => pr.2 = r.event.id)).map Prod.fst).dedup).filter (fun n => n ≠ "")
    agents := (((g.participatedAgents.filter
        (fun pr => pr.2 = r.event.id)).map Prod.fst).dedup).filter (fun n => n ≠ "")
    what := ((((g.involvedIn.filter
        (fun pr => pr.2 = r.event.id)).map Prod.fst).filterMap
          g.entityName).dedup).filter (fun n => n ≠ "")
    whereName := r.place
    why := (((g.catalyzedBy.filter
        (fun pr => pr.1 = r.event.id)).map Prod.snd).dedup).filter (fun n => n ≠ "")
    effects := (((g.effects.filter (fun f => f.eventId = r.event.id)).map
        (fun f => (f.summary, f.valence, f.intensity, f.targetId))).dedup).filter
          (fun t => t.1 ≠ "") }

/-- `hippocampus_search_events` with zero filters supplied. -/
def searchEventsNoFilters (g : Graph) (limitArg : Option ℕ) : List EventView :=
  ((List.insertionSort rowLe (searchRows g)).take (searchLimit limitArg)).map
    (projectEvent g)

/-! ### General-purpose lemmas about the list-backed store operations -/

lemma foldl_preserve {α β : Type _} {Q : β → Prop} {s : β → α → β}
    (hp : ∀ b a, Q b → Q (s b a)) :
    ∀ (xs : List α) (b : β), Q b → Q (xs.foldl s b) := by
  intro xs
  induction xs with
  | nil => exact fun b h => h
  | cons x xs ih => exact fun b h => ih _ (hp _ _ h)

lemma foldl_establish {α β : Type _} {Q : β → Prop} {s : β → α → β} {x : α}
    (hp : ∀ b a, Q b → Q (s b a)) (he : ∀ b, Q (s b x)) :
    ∀ (xs : List α) (b : β), x ∈ xs → Q (xs.foldl s b) := by
  intro xs
  induction xs with
  | nil => intro b h; cases h
  | cons y ys ih =>
      intro b h
      rcases List.mem_cons.mp h with rfl | hmem
      · exact foldl_preserve hp ys _ (he b)
      · exact ih _ hmem

lemma mem_mergeNode_self [DecidableEq α] (l : List α) (a : α) :
    a ∈ mergeNode l a := by
  unfold mergeNode
  split
  · assumption
  · simp

lemma mem_mergeNode_of_mem [DecidableEq α] {l : List α} {b : α} (a : α)
    (h : b ∈ l) : b ∈ mergeNode l a := by
  unfold mergeNode
  split
  · exact h
  · simp [h]

lemma mergeNode_nodup [DecidableEq α] {l : List α} (a : α) (h : l.Nodup) :
    (mergeNode l a).Nodup := by
  unfold mergeNode
  split
  · exact h
  · rename_i hna
    simp [List.nodup_append, h, hna]

lemma mergeNode_mem_iff [DecidableEq α] {l : List α} {a b : α} :
    b ∈ mergeNode l a ↔ (b ∈ l ∨ b = a) := by
  unfold mergeNode
  split
  · rename_i hm
    constructor
    · exact fun h => Or.inl h
    · rintro (h | rfl) <;> [exact h; exact hm]
  · simp

lemma mergeEntity_ids_nodup {l : List EntityNode} (r : EntityRef)
    (h : (l.map EntityNode.id).Nodup) :
    ((mergeEntity l r).map EntityNode.id).Nodup := by
  unfold mergeEntity
  split
  · rename_i hemp
    have habs : ∀ en ∈ l, ¬ (en.id = r.id) := by
      intro en hen
      have := List.filter_eq_nil_iff.mp (List.isEmpty_iff.mp hemp) en hen
      simpa using this
    simp only [List.map_append, List.map_cons, List.map_nil]
    refine List.Nodup.append h (List.nodup_singleton _) ?_
    intro x hx hx'
    simp only [List.mem_singleton] at hx'
    rcases List.mem_map.mp hx with ⟨en, hen, rfl⟩
    exact habs en hen (by simpa using hx')
  · exact h

lemma mem_mergeEntity_ids_self (l : List EntityNode) (r : EntityRef) :
    r.id ∈ (mergeEntity l r).map EntityNode.id := by
  unfold mergeEntity
  split
  · simp
  · rename_i hne
    have h' : ∃ en ∈ l, en.id = r.id := by
      simpa [List.isEmpty_iff, List.filter_eq_nil_iff] using hne
    rcases h' with ⟨en, hen, hid⟩
    exact List.mem_map.mpr ⟨en, hen, hid⟩

lemma mem_mergeEntity_ids_of_mem {l : List EntityNode} {i : String}
    (r : EntityRef) (h : i ∈ l.map EntityNode.id) :
    i ∈ (mergeEntity l r).map EntityNode.id := by
  unfold mergeEntity
  split
  · simp only [List.map_append]
    exact List.mem_append_left _ h
  · exact h

/-! ### Facts about `evolveBond` -/

/-- The BOND edges currently stored for one ordered pair. -/
def bondsFor (g : Graph) (A B : String) : List BondEdge :=
  g.bonds.filter (fun be => be.fromId = A ∧ be.toId = B)

lemma bonds_update_filter (a : EvolveBondArgs) (now : ℕ) :
    ∀ (l : List BondEdge) (b0 : Bond),
      l.filter (fun be => be.fromId = a.from_entity_id ∧ be.toId = a.to_entity_id) =
        [⟨a.from_entity_id, a.to_entity_id, b0⟩] →
      (l.map (fun be =>
        if be.fromId = a.from_entity_id ∧ be.toId = a.to_entity_id then
          ⟨be.fromId, be.toId, bondOnMatch be.bond a now⟩
        else be)).filter
          (fun be => be.fromId = a.from_entity_id ∧ be.toId = a.to_entity_id) =
        [⟨a.from_entity_id, a.to_entity_id, bondOnMatch b0 a now⟩] := by
  intro l
  induction l with
  | nil => intro b0 h; simp at h
  | cons be l ih =>
      intro b0 h
      by_cases hb : be.fromId = a.from_entity_id ∧ be.toId = a.to_entity_id
      · rw [List.filter_cons_of_pos (by simpa using hb)] at h
        rw [List.cons_eq_cons] at h
        obtain ⟨hbe, hrest⟩ := h
        have hnone := List.filter_eq_nil_iff.mp hrest
        rw [List.map_cons, if_pos hb]
        rw [List.filter_cons_of_pos (by simpa using ⟨hb.1, hb.2⟩)]
        have htail : (l.map (fun be =>
            if be.fromId = a.from_entity_id ∧ be.toId = a.to_entity_id then
              (⟨be.fromId, be.toId, bondOnMatch be.bond a now⟩ : BondEdge)
            else be)).filter
              (fun be => be.fromId = a.from_entity_id ∧ be.toId = a.to_entity_id) = [] := by
          refine List.filter_eq_nil_iff.mpr ?_
          intro y hy
          rcases List.mem_map.mp hy with ⟨x, hx, rfl⟩
          have hnx : ¬ (x.fromId = a.from_entity_id ∧ x.toId = a.to_entity_id) := by
            simpa using hnone x hx
          rw [if_neg hnx]
          simpa using hnx
        rw [htail]
        subst hbe
        rfl
      · rw [List.filter_cons_of_neg (by simpa using hb)] at h
        rw [List.map_cons, if_neg hb]
        rw [List.filter_cons_of_neg (by simpa using hb)]
        exact ih b0 h

/-- A two-node graph holding just the endpoints `A` and `B`. -/
def gAB : Graph :=
  { Graph.empty with others := [⟨"A", none⟩, ⟨"B", none⟩] }

/-- Two successive `evolve_bond(A, B, ...)` calls with strengths `s1`, `s2`. -/
def evolveTwice (s1 s2 : ℚ) : Except String Graph :=
  (evolveBond ⟨"A", "B", s1, none, none, none⟩ 1 gAB).bind
    (fun g1 => evolveBond ⟨"A", "B", s2, none, none, none⟩ 2 g1)

/-- C2: the first `evolve_bond(A, B, s)` call on an absent pair creates
exactly one BOND edge with `interaction_count = 1` and a one-snapshot
trajectory; every later call on the same pair reuses that single edge,
overwriting `strength`, keeping `emotional_resonance` when none is given,
incrementing `interaction_count`, updating `last_interaction`, appending
the milestone only when given, and appending exactly one trajectory
snapshot.  Concretely, `evolve_bond(A,B,0.3)` then `evolve_bond(A,B,0.6)`
leaves one edge with strength 0.6, `interaction_count = 2` and a
length-2 trajectory. -/
theorem evolve_bond_state_machine :
    (∀ (g : Graph) (a : EvolveBondArgs) (now : ℕ),
      g.resolveCount a.from_entity_id ≠ 0 →
      g.resolveCount a.to_entity_id ≠ 0 →
      (bondsFor g a.from_entity_id a.to_entity_id = [] →
        ∃ g', evolveBond a now g = .ok g' ∧
          bondsFor g' a.from_entity_id a.to_entity_id =
            [⟨a.from_entity_id, a.to_entity_id, bondOnCreate a now⟩] ∧
          g'.bonds.length = g.bonds.length + 1 ∧
          (bondOnCreate a now).interaction_count = 1 ∧
          (bondOnCreate a now).evolution_trajectory.length = 1 ∧
          (bondOnCreate a now).strength = a.new_strength) ∧
      (∀ b : Bond,
        bondsFor g a.from_entity_id a.to_entity_id =
          [⟨a.from_entity_id, a.to_entity_id, b⟩] →
        ∃ g', evolveBond a now g = .ok g' ∧
          bondsFor g' a.from_entity_id a.to_entity_id =
            [⟨a.from_entity_id, a.to_entity_id, bondOnMatch b a now⟩] ∧
          g'.bonds.length = g.bonds.length ∧
          (bondOnMatch b a now).strength = a.new_strength ∧
          (a.emotional_resonance = none →
            (bondOnMatch b a now).emotional_resonance = b.emotional_resonance) ∧
          (bondOnMatch b a now).interaction_count = b.interaction_count + 1 ∧
          (bondOnMatch b a now).last_interaction = now ∧
          (a.milestone = none → (bondOnMatch b a now).milestones = b.milestones) ∧
          (∀ m, a.milestone = some m → m ≠ "" →
            (bondOnMatch b a now).milestones = b.milestones ++ [m]) ∧
          (bondOnMatch b a now).evolution_trajectory =
            b.evolution_trajectory ++
              [⟨now, a.new_strength, jsOrNullQ a.emotional_resonance,
                jsOrNullStr a.interaction_context⟩])) ∧
    ((evolveTwice (Rat.divInt 3 10) (Rat.divInt 6 10)).toOption.map
        (fun g2 => g2.bonds.map (fun be =>
          (be.fromId, be.toId, be.bond.strength, be.bond.interaction_count,
            be.bond.evolution_trajectory.length))) =
      some [("A", "B", Rat.divInt 6 10, 2, 2)]) := by
  constructor
  · intro g a now hfrom hto
    constructor
    · intro habsent
      refine ⟨{ g with bonds :=
        g.bonds ++ [⟨a.from_entity_id, a.to_entity_id, bondOnCreate a now⟩] },
        ?_, ?_, ?_, rfl, rfl, rfl⟩
      · unfold evolveBond
        rw [if_neg (by push_neg; exact ⟨hfrom, hto⟩)]
        rw [if_pos (by simpa [bondsFor, List.isEmpty_iff] using habsent)]
      · unfold bondsFor at habsent ⊢
        simp only [List.filter_append, habsent]
        simp
      · simp
    · intro b hpresent
      refine ⟨{ g with bonds := g.bonds.map (fun be =>
        if be.fromId = a.from_entity_id ∧ be.toId = a.to_entity_id then
          ⟨be.fromId, be.toId, bondOnMatch be.bond a now⟩
        else be) }, ?_, ?_, ?_, rfl, ?_, rfl, rfl, ?_, ?_, ?_⟩
      · unfold evolveBond
        rw [if_neg (by push_neg; exact ⟨hfrom, hto⟩)]
        rw [if_neg ?_]
        case _ =>
          unfold bondsFor at hpresent
          have hmem : (⟨a.from_entity_id, a.to_entity_id, b⟩ : BondEdge) ∈ g.bonds := by
            refine List.mem_of_mem_filter (p :=
              fun be => decide (be.fromId = a.from_entity_id ∧ be.toId = a.to_entity_id)) ?_
            rw [hpresent]
            exact List.mem_singleton_self _
          simp only [List.isEmpty_iff, List.filter_eq_nil_iff]
          push_neg
          exact ⟨_, hmem, by simp⟩
      · unfold bondsFor at hpresent ⊢
        exact bonds_update_filter a now g.bonds b hpresent
      · simp
      · intro hres; simp [bondOnMatch, hres, jsOrNullQ]
      · intro hmil; simp [bondOnMatch, hmil, jsOrNullStr]
      · intro m hm hne; simp [bondOnMatch, hm, jsOrNullStr, hne]
      · rfl
  · decide

/-- The first `evolve_bond` call of the concrete scenario. -/
def aAB : EvolveBondArgs := ⟨"A", "B", Rat.divInt 3 10, none, none, none⟩

/-- Witness for C2: the hypotheses hold at the concrete pair `(A, B)` of
`gAB` and the create transition follows by the theorem. -/
theorem evolve_bond_state_machine_witness :
    (gAB.resolveCount "A" ≠ 0 ∧ gAB.resolveCount "B" ≠ 0 ∧
      bondsFor gAB "A" "B" = []) ∧
    (∃ g', evolveBond aAB 1 gAB = .ok g' ∧
      bondsFor g' "A" "B" = [⟨"A", "B", bondOnCreate aAB 1⟩] ∧
      g'.bonds.length = gAB.bonds.length + 1 ∧
      (bondOnCreate aAB 1).interaction_count = 1 ∧
      (bondOnCreate aAB 1).evolution_trajectory.length = 1 ∧
      (bondOnCreate aAB 1).strength = aAB.new_strength) :=
  ⟨⟨by decide, by decide, by decide⟩,
    (evolve_bond_state_machine.1 gAB aAB 1 (by decide) (by decide)).1 (by decide)⟩

/-! ### Store-level facts about `handleWriteEvent` -/

/-- Store growth: every node store and edge store only gains entries. -/
structure StoreLe (g g' : Graph) : Prop where
  events : g.events ⊆ g'.events
  persons : g.persons ⊆ g'.persons
  agents : g.agents ⊆ g'.agents
  entityIds : g.entities.map EntityNode.id ⊆ g'.entities.map EntityNode.id
  places : g.places ⊆ g'.places
  catalysts : g.catalysts ⊆ g'.catalysts
  targets : g.targets ⊆ g'.targets
  effects : g.effects ⊆ g'.effects
  participatedPersons : g.participatedPersons ⊆ g'.participatedPersons
  participatedAgents : g.participatedAgents ⊆ g'.participatedAgents
  involvedIn : g.involvedIn ⊆ g'.involvedIn
  producedE : g.producedE ⊆ g'.producedE
  heldAt : g.heldAt ⊆ g'.heldAt
  catalyzedBy : g.catalyzedBy ⊆ g'.catalyzedBy

lemma StoreLe.refl (g : Graph) : StoreLe g g := by
  constructor <;> exact fun _ h => h

lemma StoreLe.trans {g g' g'' : Graph} (h : StoreLe g g') (h' : StoreLe g' g'') :
    StoreLe g g'' := by
  constructor
  · exact h.events.trans h'.events
  · exact h.persons.trans h'.persons
  · exact h.agents.trans h'.agents
  · exact h.entityIds.trans h'.entityIds
  · exact h.places.trans h'.places
  · exact h.catalysts.trans h'.catalysts
  · exact h.targets.trans h'.targets
  · exact h.effects.trans h'.effects
  · exact h.participatedPersons.trans h'.participatedPersons
  · exact h.participatedAgents.trans h'.participatedAgents
  · exact h.involvedIn.trans h'.involvedIn
  · exact h.producedE.trans h'.producedE
  · exact h.heldAt.trans h'.heldAt
  · exact h.catalyzedBy.trans h'.catalyzedBy

lemma mergeNode_subset [DecidableEq α] (l : List α) (a : α) :
    l ⊆ mergeNode l a := by
  intro b hb
  exact mem_mergeNode_of_mem a hb

lemma mergeEntity_ids_subset (l : List EntityNode) (r : EntityRef) :
    l.map EntityNode.id ⊆ (mergeEntity l r).map EntityNode.id := by
  intro i hi
  exact mem_mergeEntity_ids_of_mem r hi

lemma stepPlace_le (eid : String) (w : Option String) (h : Graph) :
    StoreLe h (writeStepPlace eid w h) := by
  unfold writeStepPlace
  split
  · constructor <;> first
      | exact fun _ hx => hx
      | exact mergeNode_subset _ _
  · exact StoreLe.refl _

lemma stepWho_le (eid : String) (h : Graph) (p : WhoRef) :
    StoreLe h (writeStepWho eid h p) := by
  unfold writeStepWho
  split
  · constructor <;> first
      | exact fun _ hx => hx
      | exact mergeNode_subset _ _
  · split
    · constructor <;> first
        | exact fun _ hx => hx
        | exact mergeNode_subset _ _
    · exact StoreLe.refl _

lemma stepWhy_le (eid : String) (h : Graph) (r : String) :
    StoreLe h (writeStepWhy eid h r) := by
  unfold writeStepWhy
  constructor <;> first
    | exact fun _ hx => hx
    | exact mergeNode_subset _ _

lemma stepEntity_le (eid : String) (h : Graph) (r : EntityRef) :
    StoreLe h (writeStepEntity eid h r) := by
  unfold writeStepEntity
  constructor <;> first
    | exact fun _ hx => hx
    | exact mergeNode_subset _ _
    | exact mergeEntity_ids_subset _ _

lemma stepProduced_le (eid : String) (h : Graph) (r : EntityRef) :
    StoreLe h (writeStepProduced eid h r) := by
  unfold writeStepProduced
  constructor <;> first
    | exact fun _ hx => hx
    | exact mergeNode_subset _ _
    | exact mergeEntity_ids_subset _ _

lemma stepEffect_le (eid : String) (h : Graph) (f : EffectArg) :
    StoreLe h (writeStepEffect eid h f) := by
  unfold writeStepEffect
  constructor <;> first
    | exact fun _ hx => hx
    | exact mergeNode_subset _ _
    | exact List.subset_append_left _ _

lemma foldl_le {α : Type _} {step : Graph → α → Graph}
    (hs : ∀ h x, StoreLe h (step h x)) (xs : List α) (g : Graph) :
    StoreLe g (xs.foldl step g) := by
  induction xs generalizing g with
  | nil => exact StoreLe.refl g
  | cons x xs ih => exact StoreLe.trans (hs g x) (ih _)

lemma weG3_le_apply (eid : String) (t : ℕ) (a : WriteEventArgs) (g : Graph) :
    StoreLe (weG3 eid t a g) (weApply eid t a g) := by
  unfold weApply weG6 weG5 weG4
  refine StoreLe.trans (foldl_le (stepWhy_le eid) a.why _) ?_
  refine StoreLe.trans (foldl_le (stepEntity_le eid) a.what_entities _) ?_
  refine StoreLe.trans (foldl_le (stepProduced_le eid) a.what_produced _) ?_
  exact foldl_le (stepEffect_le eid) a.effects _

lemma weG4_le_apply (eid : String) (t : ℕ) (a : WriteEventArgs) (g : Graph) :
    StoreLe (weG4 eid t a g) (weApply eid t a g) := by
  unfold weApply weG6 weG5
  refine StoreLe.trans (foldl_le (stepEntity_le eid) a.what_entities _) ?_
  refine StoreLe.trans (foldl_le (stepProduced_le eid) a.what_produced _) ?_
  exact foldl_le (stepEffect_le eid) a.effects _

lemma weG5_le_apply (eid : String) (t : ℕ) (a : WriteEventArgs) (g : Graph) :
    StoreLe (weG5 eid t a g) (weApply eid t a g) := by
  unfold weApply weG6
  refine StoreLe.trans (foldl_le (stepProduced_le eid) a.what_produced _) ?_
  exact foldl_le (stepEffect_le eid) a.effects _

lemma weG6_le_apply (eid : String) (t : ℕ) (a : WriteEventArgs) (g : Graph) :
    StoreLe (weG6 eid t a g) (weApply eid t a g) := by
  unfold weApply
  exact foldl_le (stepEffect_le eid) a.effects _

lemma weApply_le (eid : String) (t : ℕ) (a : WriteEventArgs) (g : Graph) :
    StoreLe (weG1 eid t a g) (weApply eid t a g) := by
  refine StoreLe.trans (stepPlace_le eid a.«where» _) ?_
  refine StoreLe.trans (foldl_le (stepWho_le eid) a.who _) ?_
  exact weG3_le_apply eid t a g

/-! ### Per-block establishment and characterization for `weApply` -/

lemma weApply_person (eid : String) (t : ℕ) (a : WriteEventArgs) (g : Graph)
    {n : String} (hmem : (⟨n, "person"⟩ : WhoRef) ∈ a.who) :
    n ∈ (weApply eid t a g).persons ∧
      (n, eid) ∈ (weApply eid t a g).participatedPersons := by
  have h3 : n ∈ (weG3 eid t a g).persons ∧
      (n, eid) ∈ (weG3 eid t a g).participatedPersons := by
    refine foldl_establish
      (Q := fun h : Graph => n ∈ h.persons ∧ (n, eid) ∈ h.participatedPersons)
      (s := writeStepWho eid) (x := (⟨n, "person"⟩ : WhoRef)) ?_ ?_ a.who _ hmem
    · intro b p hq
      exact ⟨(stepWho_le eid b p).persons hq.1,
        (stepWho_le eid b p).participatedPersons hq.2⟩
    · intro b
      unfold writeStepWho
      simp only [if_pos rfl]
      exact ⟨mem_mergeNode_self _ _, mem_mergeNode_self _ _⟩
  exact ⟨(weG3_le_apply eid t a g).persons h3.1,
    (weG3_le_apply eid t a g).participatedPersons h3.2⟩

lemma weApply_agent (eid : String) (t : ℕ) (a : WriteEventArgs) (g : Graph)
    {n : String} (hmem : (⟨n, "agent"⟩ : WhoRef) ∈ a.who) :
    n ∈ (weApply eid t a g).agents ∧
      (n, eid) ∈ (weApply eid t a g).participatedAgents := by
  have h3 : n ∈ (weG3 eid t a g).agents ∧
      (n, eid) ∈ (weG3 eid t a g).participatedAgents := by
    refine foldl_establish
      (Q := fun h : Graph => n ∈ h.agents ∧ (n, eid) ∈ h.participatedAgents)
      (s := writeStepWho eid) (x := (⟨n, "agent"⟩ : WhoRef)) ?_ ?_ a.who _ hmem
    · intro b p hq
      exact ⟨(stepWho_le eid b p).agents hq.1,
        (stepWho_le eid b p).participatedAgents hq.2⟩
    · intro b
      unfold writeStepWho
      norm_num
      exact ⟨mem_mergeNode_self _ _, mem_mergeNode_self _ _⟩
  exact ⟨(weG3_le_apply eid t a g).agents h3.1,
    (weG3_le_apply eid t a g).participatedAgents h3.2⟩

lemma weApply_place (eid : String) (t : ℕ) (a : WriteEventArgs) (g : Graph)
    {p : String} (hw : jsOrNullStr a.«where» = some p) :
    p ∈ (weApply eid t a g).places ∧ (eid, p) ∈ (weApply eid t a g).heldAt := by
  have h2 : p ∈ (weG2 eid t a g).places ∧ (eid, p) ∈ (weG2 eid t a g).heldAt := by
    unfold weG2 writeStepPlace
    rw [hw]
    exact ⟨mem_mergeNode_self _ _, mem_mergeNode_self _ _⟩
  have lrest : StoreLe (weG2 eid t a g) (weApply eid t a g) :=
    StoreLe.trans (foldl_le (stepWho_le eid) a.who _) (weG3_le_apply eid t a g)
  exact ⟨lrest.places h2.1, lrest.heldAt h2.2⟩

lemma weApply_why (eid : String) (t : ℕ) (a : WriteEventArgs) (g : Graph)
    {r : String} (hmem : r ∈ a.why) :
    r ∈ (weApply eid t a g).catalysts ∧
      (eid, r) ∈ (weApply eid t a g).catalyzedBy := by
  have h4 : r ∈ (weG4 eid t a g).catalysts ∧ (eid, r) ∈ (weG4 eid t a g).catalyzedBy := by
    refine foldl_establish
      (Q := fun h : Graph => r ∈ h.catalysts ∧ (eid, r) ∈ h.catalyzedBy)
      (s := writeStepWhy eid) (x := r) ?_ ?_ a.why _ hmem
    · intro b x hq
      exact ⟨(stepWhy_le eid b x).catalysts hq.1, (stepWhy_le eid b x).catalyzedBy hq.2⟩
    · intro b
      unfold writeStepWhy
      exact ⟨mem_mergeNode_self _ _, mem_mergeNode_self _ _⟩
  exact ⟨(weG4_le_apply eid t a g).catalysts h4.1,
    (weG4_le_apply eid t a g).catalyzedBy h4.2⟩

lemma weApply_entity (eid : String) (t : ℕ) (a : WriteEventArgs) (g : Graph)
    {r : EntityRef} (hmem : r ∈ a.what_entities) :
    r.id ∈ (weApply eid t a g).entities.map EntityNode.id ∧
      (r.id, eid) ∈ (weApply eid t a g).involvedIn := by
  have h5 : r.id ∈ (weG5 eid t a g).entities.map EntityNode.id ∧
      (r.id, eid) ∈ (weG5 eid t a g).involvedIn := by
    refine foldl_establish
      (Q := fun h : Graph =>
        r.id ∈ h.entities.map EntityNode.id ∧ (r.id, eid) ∈ h.involvedIn)
      (s := writeStepEntity eid) (x := r) ?_ ?_ a.what_entities _ hmem
    · intro b x hq
      exact ⟨(stepEntity_le eid b x).entityIds hq.1, (stepEntity_le eid b x).involvedIn hq.2⟩
    · intro b
      unfold writeStepEntity
      exact ⟨mem_mergeEntity_ids_self _ _, mem_mergeNode_self _ _⟩
  exact ⟨(weG5_le_apply eid t a g).entityIds h5.1,
    (weG5_le_apply eid t a g).involvedIn h5.2⟩

lemma weApply_produced (eid : String) (t : ℕ) (a : WriteEventArgs) (g : Graph)
    {r : EntityRef} (hmem : r ∈ a.what_produced) :
    r.id ∈ (weApply eid t a g).entities.map EntityNode.id ∧
      (eid, r.id) ∈ (weApply eid t a g).producedE := by
  have h6 : r.id ∈ (weG6 eid t a g).entities.map EntityNode.id ∧
      (eid, r.id) ∈ (weG6 eid t a g).producedE := by
    refine foldl_establish
      (Q := fun h : Graph =>
        r.id ∈ h.entities.map EntityNode.id ∧ (eid, r.id) ∈ h.producedE)
      (s := writeStepProduced eid) (x := r) ?_ ?_ a.what_produced _ hmem
    · intro b x hq
      exact ⟨(stepProduced_le eid b x).entityIds hq.1, (stepProduced_le eid b x).producedE hq.2⟩
    · intro b
      unfold writeStepProduced
      exact ⟨mem_mergeEntity_ids_self _ _, mem_mergeNode_self _ _⟩
  exact ⟨(weG6_le_apply eid t a g).entityIds h6.1,
    (weG6_le_apply eid t a g).producedE h6.2⟩

lemma weApply_effect (eid : String) (t : ℕ) (a : WriteEventArgs) (g : Graph)
    {f : EffectArg} (hmem : f ∈ a.effects) :
    (f.target_id, f.target_kind) ∈ (weApply eid t a g).targets ∧
      (⟨eid, f.summary, f.valence, f.intensity, f.target_id, f.target_kind⟩ :
        EffectOcc) ∈ (weApply eid t a g).effects := by
  unfold weApply
  refine foldl_establish
    (Q := fun h : Graph => (f.target_id, f.target_kind) ∈ h.targets ∧
      (⟨eid, f.summary, f.valence, f.intensity, f.target_id, f.target_kind⟩ :
        EffectOcc) ∈ h.effects)
    (s := writeStepEffect eid) (x := f) ?_ ?_ a.effects _ hmem
  · intro b x hq
    exact ⟨(stepEffect_le eid b x).targets hq.1, (stepEffect_le eid b x).effects hq.2⟩
  · intro b
    unfold writeStepEffect
    exact ⟨mem_mergeNode_self _ _, by simp⟩

lemma stepPlace_events (eid : String) (w : Option String) (h : Graph) :
    (writeStepPlace eid w h).events = h.events := by
  unfold writeStepPlace
  split <;> rfl

lemma stepWho_events (eid : String) (h : Graph) (p : WhoRef) :
    (writeStepWho eid h p).events = h.events := by
  unfold writeStepWho
  split
  · rfl
  · split <;> rfl

lemma weApply_events (eid : String) (t : ℕ) (a : WriteEventArgs) (g : Graph) :
    (weApply eid t a g).events = g.events ++ [hipEventNode eid t a] := by
  unfold weApply weG6 weG5 weG4 weG3 weG2 weG1
  rw [show ∀ h : Graph, (a.effects.foldl (writeStepEffect eid) h).events = h.events from
    fun h => foldl_preserve (Q := fun h' : Graph => h'.events = h.events)
      (fun b x hb => by unfold writeStepEffect; simpa using hb) a.effects h rfl]
  rw [show ∀ h : Graph, (a.what_produced.foldl (writeStepProduced eid) h).events = h.events from
    fun h => foldl_preserve (Q := fun h' : Graph => h'.events = h.events)
      (fun b x hb => by unfold writeStepProduced; simpa using hb) a.what_produced h rfl]
  rw [show ∀ h : Graph, (a.what_entities.foldl (writeStepEntity eid) h).events = h.events from
    fun h => foldl_preserve (Q := fun h' : Graph => h'.events = h.events)
      (fun b x hb => by unfold writeStepEntity; simpa using hb) a.what_entities h rfl]
  rw [show ∀ h : Graph, (a.why.foldl (writeStepWhy eid) h).events = h.events from
    fun h => foldl_preserve (Q := fun h' : Graph => h'.events = h.events)
      (fun b x hb => by unfold writeStepWhy; simpa using hb) a.why h rfl]
  rw [show ∀ h : Graph, (a.who.foldl (writeStepWho eid) h).events = h.events from
    fun h => foldl_preserve (Q := fun h' : Graph => h'.events = h.events)
      (fun b x hb => by show (writeStepWho eid b x).events = h.events
                        rw [stepWho_events]; exact hb) a.who h rfl]
  rw [stepPlace_events]

lemma effectsFold_effects (eid : String) :
    ∀ (fs : List EffectArg) (h : Graph),
      (fs.foldl (writeStepEffect eid) h).effects =
        h.effects ++ fs.map (fun f =>
          (⟨eid, f.summary, f.valence, f.intensity, f.target_id, f.target_kind⟩ :
            EffectOcc)) := by
  intro fs
  induction fs with
  | nil => intro h; simp
  | cons f fs ih =>
      intro h
      rw [List.foldl_cons, ih, List.map_cons]
      unfold writeStepEffect
      simp

lemma weApply_effects (eid : String) (t : ℕ) (a : WriteEventArgs) (g : Graph) :
    (weApply eid t a g).effects =
      g.effects ++ a.effects.map (fun f =>
        (⟨eid, f.summary, f.valence, f.intensity, f.target_id, f.target_kind⟩ :
          EffectOcc)) := by
  unfold weApply
  rw [effectsFold_effects]
  have h6 : (weG6 eid t a g).effects = g.effects := by
    unfold weG6 weG5 weG4 weG3 weG2 weG1
    rw [show ∀ h : Graph, (a.what_produced.foldl (writeStepProduced eid) h).effects = h.effects from
      fun h => foldl_preserve (Q := fun h' : Graph => h'.effects = h.effects)
        (fun b x hb => by unfold writeStepProduced; simpa using hb) a.what_produced h rfl]
    rw [show ∀ h : Graph, (a.what_entities.foldl (writeStepEntity eid) h).effects = h.effects from
      fun h => foldl_preserve (Q := fun h' : Graph => h'.effects = h.effects)
        (fun b x hb => by unfold writeStepEntity; simpa using hb) a.what_entities h rfl]
    rw [show ∀ h : Graph, (a.why.foldl (writeStepWhy eid) h).effects = h.effects from
      fun h => foldl_preserve (Q := fun h' : Graph => h'.effects = h.effects)
        (fun b x hb => by unfold writeStepWhy; simpa using hb) a.why h rfl]
    rw [show ∀ h : Graph, (a.who.foldl (writeStepWho eid) h).effects = h.effects from
      fun h => foldl_preserve (Q := fun h' : Graph => h'.effects = h.effects)
        (fun b x hb => by
          unfold writeStepWho
          split
          · simpa using hb
          · split
            · simpa using hb
            · exact hb) a.who h rfl]
    unfold writeStepPlace
    split <;> rfl
  rw [h6]

/-- No two nodes of an identifier-keyed kind share an identifier — the
uniqueness-constraint invariant of the reference-node stores. -/
structure NodupStores (g : Graph) : Prop where
  persons : g.persons.Nodup
  agents : g.agents.Nodup
  entityIds : (g.entities.map EntityNode.id).Nodup
  places : g.places.Nodup
  catalysts : g.catalysts.Nodup
  targets : g.targets.Nodup

lemma stepPlace_nodup {h : Graph} (eid : String) (w : Option String)
    (hn : NodupStores h) : NodupStores (writeStepPlace eid w h) := by
  unfold writeStepPlace
  split
  · exact ⟨hn.persons, hn.agents, hn.entityIds,
      mergeNode_nodup _ hn.places, hn.catalysts, hn.targets⟩
  · exact hn

lemma stepWho_nodup {h : Graph} (eid : String) (p : WhoRef)
    (hn : NodupStores h) : NodupStores (writeStepWho eid h p) := by
  unfold writeStepWho
  split
  · exact ⟨mergeNode_nodup _ hn.persons, hn.agents, hn.entityIds,
      hn.places, hn.catalysts, hn.targets⟩
  · split
    · exact ⟨hn.persons, mergeNode_nodup _ hn.agents, hn.entityIds,
        hn.places, hn.catalysts, hn.targets⟩
    · exact hn

lemma stepWhy_nodup {h : Graph} (eid : String) (r : String)
    (hn : NodupStores h) : NodupStores (writeStepWhy eid h r) := by
  unfold writeStepWhy
  exact ⟨hn.persons, hn.agents, hn.entityIds, hn.places,
    mergeNode_nodup _ hn.catalysts, hn.targets⟩

lemma stepEntity_nodup {h : Graph} (eid : String) (r : EntityRef)
    (hn : NodupStores h) : NodupStores (writeStepEntity eid h r) := by
  unfold writeStepEntity
  exact ⟨hn.persons, hn.agents, mergeEntity_ids_nodup _ hn.entityIds,
    hn.places, hn.catalysts, hn.targets⟩

lemma stepProduced_nodup {h : Graph} (eid : String) (r : EntityRef)
    (hn : NodupStores h) : NodupStores (writeStepProduced eid h r) := by
  unfold writeStepProduced
  exact ⟨hn.persons, hn.agents, mergeEntity_ids_nodup _ hn.entityIds,
    hn.places, hn.catalysts, hn.targets⟩

lemma stepEffect_nodup {h : Graph} (eid : String) (f : EffectArg)
    (hn : NodupStores h) : NodupStores (writeStepEffect eid h f) := by
  unfold writeStepEffect
  exact ⟨hn.persons, hn.agents, hn.entityIds, hn.places,
    hn.catalysts, mergeNode_nodup _ hn.targets⟩

lemma weApply_nodup (eid : String) (t : ℕ) (a : WriteEventArgs) {g : Graph}
    (hn : NodupStores g) : NodupStores (weApply eid t a g) := by
  unfold weApply weG6 weG5 weG4 weG3 weG2 weG1
  refine foldl_preserve (Q := NodupStores)
    (fun b x hb => stepEffect_nodup eid x hb) a.effects _ ?_
  refine foldl_preserve (Q := NodupStores)
    (fun b x hb => stepProduced_nodup eid x hb) a.what_produced _ ?_
  refine foldl_preserve (Q := NodupStores)
    (fun b x hb => stepEntity_nodup eid x hb) a.what_entities _ ?_
  refine foldl_preserve (Q := NodupStores)
    (fun b x hb => stepWhy_nodup eid x hb) a.why _ ?_
  refine foldl_preserve (Q := NodupStores)
    (fun b x hb => stepWho_nodup eid x hb) a.who _ ?_
  exact stepPlace_nodup eid a.«where»
    ⟨hn.persons, hn.agents, hn.entityIds, hn.places, hn.catalysts, hn.targets⟩

/-! ### Outcome-level facts about `writeEvent` -/

lemma writeEvent_ok_graph {genId : String} {t : ℕ} {a : WriteEventArgs}
    {g : Graph}
    (hfresh : (g.events.filter (fun e => e.id = weEventId a genId)).isEmpty) :
    (writeEvent genId t a g).ok = true ∧
      (writeEvent genId t a g).graph =
        weApply (weEventId a genId) (a.happened_at.getD t) a g := by
  simp only [writeEvent, writeEventTxBody, hfresh, if_true]
  exact ⟨trivial, trivial⟩

lemma writeEvent_err_graph {genId : String} {t : ℕ} {a : WriteEventArgs}
    {g : Graph}
    (hdup : ¬ (g.events.filter (fun e => e.id = weEventId a genId)).isEmpty) :
    (writeEvent genId t a g).ok = false ∧ (writeEvent genId t a g).graph = g := by
  rw [Bool.not_eq_true] at hdup
  simp only [writeEvent, writeEventTxBody, hdup, Bool.false_eq_true, if_false]
  exact ⟨trivial, trivial⟩

lemma writeEvent_graph_cases (genId : String) (now : ℕ) (a : WriteEventArgs)
    (g : Graph) :
    (writeEvent genId now a g).graph =
        weApply (weEventId a genId) (a.happened_at.getD now) a g ∨
      (writeEvent genId now a g).graph = g := by
  by_cases hfresh : (g.events.filter (fun e => e.id = weEventId a genId)).isEmpty
  · exact Or.inl (writeEvent_ok_graph hfresh).2
  · exact Or.inr (writeEvent_err_graph hfresh).2

/-! ### Claim C1 — range validation -/

/-- An `evolve_bond` argument object with out-of-range strength 1.5. -/
def aBad : EvolveBondArgs := ⟨"A", "B", Rat.divInt 3 2, none, none, none⟩

/-- A `hippocampus_write_event` payload with out-of-range intensity 1.5. -/
def waBadIntensity : WriteEventArgs :=
  { title := "t", description := "d",
    effects := [⟨"hurt", "negative", Rat.divInt 3 2, "T1", "HUMAN"⟩] }

/-- C1 counterexample: `evolve_bond` with `new_strength = 1.5 ∉ [0,1]`
succeeds and creates a BOND edge carrying 1.5, and
`hippocampus_write_event` with effect `intensity = 1.5 ∉ [0,1]` succeeds
and stores the Effect — neither operation aborts with a validation error. -/
theorem range_validation_cex :
    (1 : ℚ) < Rat.divInt 3 2 ∧
    ((evolveBond aBad 1 gAB).toOption.map
      (fun g' => g'.bonds.map (fun be => (be.fromId, be.toId, be.bond.strength))) =
      some [("A", "B", Rat.divInt 3 2)]) ∧
    (writeEvent "ev1" 1 waBadIntensity Graph.empty).ok = true ∧
    ((writeEvent "ev1" 1 waBadIntensity Graph.empty).graph.effects.map
      (fun f => f.intensity) = [Rat.divInt 3 2]) := by
  decide

/-- C1 (amended): only `encode_memory` range-checks its numeric inputs —
an out-of-range `emotional_valence` or `significance` aborts before any
write with the graph unchanged (so `emotional_valence = 1.5` creates zero
nodes); `evolve_bond` and `hippocampus_write_event` perform no range
validation and write out-of-range `new_strength` / effect `intensity`
values as given. -/
theorem range_validation_split :
    (∀ (embed : String → Option (List ℚ)) (newId : String) (now : ℕ)
        (a : EncodeArgs) (g : Graph),
      (a.event.emotional_valence < -1 ∨ 1 < a.event.emotional_valence) →
      (encodeMemory embed newId now a g).ok = false ∧
        (encodeMemory embed newId now a g).graph = g) ∧
    (∀ (embed : String → Option (List ℚ)) (newId : String) (now : ℕ)
        (a : EncodeArgs) (g : Graph),
      (a.event.significance < 0 ∨ 1 < a.event.significance) →
      (encodeMemory embed newId now a g).ok = false ∧
        (encodeMemory embed newId now a g).graph = g) ∧
    (∀ (a : EvolveBondArgs) (now : ℕ) (g : Graph),
      g.resolveCount a.from_entity_id ≠ 0 →
      g.resolveCount a.to_entity_id ≠ 0 →
      ∃ g', evolveBond a now g = .ok g' ∧
        ∃ be ∈ g'.bonds, be.fromId = a.from_entity_id ∧
          be.toId = a.to_entity_id ∧ be.bond.strength = a.new_strength) ∧
    (∀ (genId : String) (now : ℕ) (a : WriteEventArgs) (g : Graph),
      (g.events.filter (fun e => e.id = weEventId a genId)).isEmpty →
      (writeEvent genId now a g).ok = true ∧
        (writeEvent genId now a g).graph.effects =
          g.effects ++ a.effects.map (fun f =>
            (⟨weEventId a genId, f.summary, f.valence, f.intensity,
              f.target_id, f.target_kind⟩ : EffectOcc))) := by
  refine ⟨?_, ?_, ?_, ?_⟩
  · intro embed newId now a g h
    unfold encodeMemory
    rw [if_pos h]
    exact ⟨rfl, rfl⟩
  · intro embed newId now a g h
    unfold encodeMemory
    by_cases h1 : a.event.emotional_valence < -1 ∨ 1 < a.event.emotional_valence
    · rw [if_pos h1]; exact ⟨rfl, rfl⟩
    · rw [if_neg h1, if_pos h]; exact ⟨rfl, rfl⟩
  · intro a now g hfrom hto
    unfold evolveBond
    rw [if_neg (by push_neg; exact ⟨hfrom, hto⟩)]
    by_cases hb : (g.bonds.filter
        (fun be => be.fromId = a.from_entity_id ∧ be.toId = a.to_entity_id)).isEmpty
    · rw [if_pos hb]
      refine ⟨_, rfl, ⟨a.from_entity_id, a.to_entity_id, bondOnCreate a now⟩, ?_, rfl, rfl, rfl⟩
      simp
    · rw [if_neg hb]
      have hne : (g.bonds.filter
          (fun be => be.fromId = a.from_entity_id ∧ be.toId = a.to_entity_id)) ≠ [] := by
        simpa [List.isEmpty_iff] using hb
      rcases List.exists_mem_of_ne_nil _ hne with ⟨be0, hbe0⟩
      have hbe0g : be0 ∈ g.bonds := List.mem_of_mem_filter hbe0
      have hbe0p : be0.fromId = a.from_entity_id ∧ be0.toId = a.to_entity_id := by
        simpa using List.of_mem_filter hbe0
      refine ⟨_, rfl, ⟨be0.fromId, be0.toId, bondOnMatch be0.bond a now⟩, ?_, ?_, ?_, rfl⟩
      · refine List.mem_map.mpr ⟨be0, hbe0g, ?_⟩
        rw [if_pos hbe0p]
      · exact hbe0p.1
      · exact hbe0p.2
  · intro genId now a g hfresh
    obtain ⟨hok, hgr⟩ := writeEvent_ok_graph hfresh
    refine ⟨hok, ?_⟩
    rw [hgr, weApply_effects]

/-- An `encode_memory` payload with out-of-range `emotional_valence = 2`. -/
def encBadValence : EncodeArgs :=
  { event := { type := "conversation", emotional_valence := 2,
               significance := 0, context_summary := "s" } }

/-- An `encode_memory` payload with out-of-range `significance = 2`. -/
def encBadSig : EncodeArgs :=
  { event := { type := "conversation", emotional_valence := 0,
               significance := 2, context_summary := "s" } }

/-- Witness for C1's amended theorem at concrete inputs: out-of-range
valence and significance each abort `encode_memory` leaving the empty
graph untouched, while `evolve_bond` and `hippocampus_write_event` write
their out-of-range values. -/
theorem range_validation_split_witness :
    ((encBadValence.event.emotional_valence < -1 ∨
        1 < encBadValence.event.emotional_valence) ∧
      (encodeMemory (fun _ => none) "e1" 1 encBadValence Graph.empty).ok = false ∧
      (encodeMemory (fun _ => none) "e1" 1 encBadValence Graph.empty).graph =
        Graph.empty) ∧
    ((encBadSig.event.significance < 0 ∨ 1 < encBadSig.event.significance) ∧
      (encodeMemory (fun _ => none) "e1" 1 encBadSig Graph.empty).ok = false ∧
      (encodeMemory (fun _ => none) "e1" 1 encBadSig Graph.empty).graph =
        Graph.empty) ∧
    ((gAB.resolveCount aBad.from_entity_id ≠ 0 ∧
        gAB.resolveCount aBad.to_entity_id ≠ 0) ∧
      ∃ g', evolveBond aBad 1 gAB = .ok g' ∧
        ∃ be ∈ g'.bonds, be.fromId = aBad.from_entity_id ∧
          be.toId = aBad.to_entity_id ∧ be.bond.strength = aBad.new_strength) ∧
    ((Graph.empty.events.filter
        (fun e => e.id = weEventId waBadIntensity "ev1")).isEmpty ∧
      (writeEvent "ev1" 1 waBadIntensity Graph.empty).ok = true ∧
      (writeEvent "ev1" 1 waBadIntensity Graph.empty).graph.effects =
        Graph.empty.effects ++ waBadIntensity.effects.map (fun f =>
          (⟨weEventId waBadIntensity "ev1", f.summary, f.valence, f.intensity,
            f.target_id, f.target_kind⟩ : EffectOcc))) :=
  ⟨⟨by decide, range_validation_split.1 (fun _ => none) "e1" 1 encBadValence
      Graph.empty (by decide)⟩,
    ⟨by decide, range_validation_split.2.1 (fun _ => none) "e1" 1 encBadSig
      Graph.empty (by decide)⟩,
    ⟨⟨by decide, by decide⟩, range_validation_split.2.2.1 aBad 1 gAB
      (by decide) (by decide)⟩,
    ⟨by decide, range_validation_split.2.2.2 "ev1" 1 waBadIntensity
      Graph.empty (by decide)⟩⟩

/-! ### Claim C6 — embedding-provider failure -/

/-- A well-formed `encode_memory` payload (all ranges valid). -/
def encOkArgs : EncodeArgs :=
  { event := { type := "conversation", emotional_valence := 0,
               significance := 0, context_summary := "s" } }

/-- C6 counterexample: when the Embedding Provider fails, the operation
does fail — but the session's transaction was already begun at handler
entry, before the embedding call (the trace begins with `txBegin` and the
failure path rolls that transaction back), contradicting "fails before any
Graph Store transaction has been opened". -/
theorem embed_failure_tx_order_cex :
    (encodeMemory (fun _ => none) "e1" 1 encOkArgs Graph.empty).ok = false ∧
    (encodeMemory (fun _ => none) "e1" 1 encOkArgs Graph.empty).trace =
      [.txBegin, .embedCall, .txRollback, .sessionClose] ∧
    ((encodeMemory (fun _ => none) "e1" 1 encOkArgs Graph.empty).trace.indexOf
        .txBegin <
      (encodeMemory (fun _ => none) "e1" 1 encOkArgs Graph.empty).trace.indexOf
        .embedCall) := by
  decide

/-- C6 (amended): when the Embedding Provider call fails, the whole
`encode_memory` operation fails and no Event node or relationship exists
afterwards (the graph is unchanged) — but the transaction is opened at
handler entry before the embedding call and is rolled back, not avoided. -/
theorem embed_failure_atomic
    (embed : String → Option (List ℚ)) (newId : String) (now : ℕ)
    (a : EncodeArgs) (g : Graph)
    (hval : ¬ (a.event.emotional_valence < -1 ∨ 1 < a.event.emotional_valence))
    (hsig : ¬ (a.event.significance < 0 ∨ 1 < a.event.significance))
    (hembed : embed (embeddingText a.event) = none) :
    (encodeMemory embed newId now a g).ok = false ∧
      (encodeMemory embed newId now a g).graph = g ∧
      (encodeMemory embed newId now a g).trace =
        [.txBegin, .embedCall, .txRollback, .sessionClose] := by
  unfold encodeMemory
  rw [if_neg hval, if_neg hsig, hembed]
  exact ⟨rfl, rfl, rfl⟩

/-- Witness for C6's amended theorem: a failing provider on a valid
payload over the empty graph. -/
theorem embed_failure_atomic_witness :
    (¬ (encOkArgs.event.emotional_valence < -1 ∨
          1 < encOkArgs.event.emotional_valence) ∧
      ¬ (encOkArgs.event.significance < 0 ∨ 1 < encOkArgs.event.significance) ∧
      (fun _ : String => (none : Option (List ℚ)))
        (embeddingText encOkArgs.event) = none) ∧
    ((encodeMemory (fun _ => none) "e2" 1 encOkArgs Graph.empty).ok = false ∧
      (encodeMemory (fun _ => none) "e2" 1 encOkArgs Graph.empty).graph =
        Graph.empty ∧
      (encodeMemory (fun _ => none) "e2" 1 encOkArgs Graph.empty).trace =
        [.txBegin, .embedCall, .txRollback, .sessionClose]) :=
  ⟨⟨by decide, by decide, rfl⟩,
    embed_failure_atomic (fun _ => none) "e2" 1 encOkArgs Graph.empty
      (by decide) (by decide) rfl⟩

/-! ### Claim C9 — limit handling -/

lemma rank_length (cs : List Candidate) (limit : ℕ) :
    (rankMemories cs limit).length = min limit cs.length := by
  unfold rankMemories
  rw [List.length_take, List.length_insertionSort]

/-- An Event node as `encode_memory` leaves it, carrying a significance. -/
def evSig (i : String) : EventNode :=
  { id := i, timestamp := none, type := none, emotional_valence := none,
    significance := some 0, context_summary := none, full_content := none,
    glyph_encoding := none, embedding := none, happened_at := none,
    title := none, description := none }

/-- A store holding 101 Events. -/
def g101 : Graph :=
  { Graph.empty with events := (List.range 101).map (fun n => evSig (toString n)) }

/-- C9 counterexample: a `limit` of 500 is passed through unclamped by both
retrieval handlers, and a no-query `recall_memory` over 101 stored Events
returns all 101 of them — more than the claimed hard cap of 100. -/
theorem limit_clamp_cex :
    recallLimit (some 500) = 500 ∧ searchLimit (some 500) = 500 ∧
    ¬ (500 ≤ 100) ∧
    (recallMemoryNoQuery g101 (some 500)).length = 101 ∧
    100 < (recallMemoryNoQuery g101 (some 500)).length := by
  have hlen : (recallMemoryNoQuery g101 (some 500)).length = 101 := by
    unfold recallMemoryNoQuery
    rw [rank_length]
    have : (noQueryCandidates g101).length = 101 := by
      unfold noQueryCandidates g101 evSig
      rw [List.filterMap_map]
      rw [show ((fun e : EventNode => e.significance.map
            (fun s => (⟨e.id, 1/2, s⟩ : Candidate))) ∘
          (fun n : ℕ =>
            ({ id := toString n, timestamp := none, type := none,
               emotional_valence := none, significance := some 0,
               context_summary := none, full_content := none,
               glyph_encoding := none, embedding := none, happened_at := none,
               title := none, description := none } : EventNode))) =
          (fun n : ℕ => some (⟨toString n, 1/2, 0⟩ : Candidate)) from rfl]
      rw [show (fun n : ℕ => some (⟨toString n, 1/2, 0⟩ : Candidate)) =
          some ∘ (fun n : ℕ => (⟨toString n, 1/2, 0⟩ : Candidate)) from rfl]
      rw [List.filterMap_eq_map]
      simp
    rw [this]
    decide
  exact ⟨rfl, rfl, by decide, hlen, by rw [hlen]; decide⟩

/-- C9 (amended): `limit` defaults to 10 when omitted and the ranked list
is truncated to the given limit, but no clamping into `[1,100]` happens:
`recall_memory` passes any supplied value straight through, and
`hippocampus_search_events` maps only a zero (or unparsable) limit to 10
and passes every other value through. -/
theorem limit_passthrough :
    recallLimit none = 10 ∧ searchLimit none = 10 ∧
    (∀ n : ℕ, recallLimit (some n) = n) ∧
    searchLimit (some 0) = 10 ∧
    (∀ n : ℕ, n ≠ 0 → searchLimit (some n) = n) ∧
    (∀ (cs : List Candidate) (limit : ℕ),
      (rankMemories cs limit).length = min limit cs.length) ∧
    (∀ (g : Graph) (la : Option ℕ),
      (recallMemoryNoQuery g la).length =
        min (recallLimit la) (noQueryCandidates g).length) := by
  refine ⟨rfl, rfl, fun n => rfl, rfl, ?_, rank_length, ?_⟩
  · intro n hn
    unfold searchLimit
    match n, hn with
    | Nat.succ m, _ => rfl
  · intro g la
    unfold recallMemoryNoQuery
    rw [rank_length]

/-- Witness for C9's amended theorem: a nonzero oversized limit passes
through `hippocampus_search_events` unchanged. -/
theorem limit_passthrough_witness :
    (500 : ℕ) ≠ 0 ∧ searchLimit (some 500) = 500 :=
  ⟨by decide, limit_passthrough.2.2.2.2.1 500 (by decide)⟩

/-! ### Claim C5 — filter composition -/

/-- C5: combining a join-style filter with any `WHERE`-style filter makes
both query builders emit two consecutive `WHERE` clauses — a Cypher syntax
error, so the store rejects the query instead of returning the
intersection.  Each filter on its own (and join-style filters together)
still yields a well-formed query: `recall_memory` with
`involves_entities + significance_threshold`, and `hippocampus_search_events`
with `participants + place` or `time_range + participants`, are rejected. -/
theorem filter_combination_syntax_error :
    cypherValid (recallQueryClauses
      ⟨false, false, false, true, false, true, false⟩) = false ∧
    cypherValid (searchQueryClauses
      ⟨false, true, false, true, false, false⟩) = false ∧
    cypherValid (searchQueryClauses
      ⟨true, true, false, false, false, false⟩) = false ∧
    cypherValid (recallQueryClauses
      ⟨false, false, false, true, false, false, false⟩) = true ∧
    cypherValid (recallQueryClauses
      ⟨false, false, false, false, false, true, false⟩) = true ∧
    cypherValid (searchQueryClauses
      ⟨true, false, false, false, false, false⟩) = true ∧
    cypherValid (searchQueryClauses
      ⟨false, true, true, false, false, false⟩) = true := by
  decide

/-! ### Claim C4 — hybrid ranking -/

lemma indexOf_le_of_getElem [DecidableEq α] :
    ∀ {l : List α} {a : α} {i : ℕ}, ∀ _ : i < l.length, l[i] = a →
      l.indexOf a ≤ i := by
  intro l
  induction l with
  | nil => intro a i h _; simp at h
  | cons x xs ih =>
      intro a i h he
      by_cases hxa : x = a
      · subst hxa; simp [List.indexOf_cons_self]
      · match i, h, he with
        | 0, _, he => exact absurd (by simpa using he) hxa
        | Nat.succ j, h, he =>
            have hj : j < xs.length := by simpa using h
            have he' : xs[j] = a := by simpa using he
            rw [List.indexOf_cons_ne _ hxa]
            exact Nat.succ_le_succ (ih hj he')

lemma sorted_indexOf_lt [DecidableEq α] {r : α → α → Prop} {l : List α}
    (hs : l.Sorted r) {a b : α} (ha : a ∈ l) (hb : b ∈ l) (hab : a ≠ b)
    (hnr : ¬ r b a) : l.indexOf a < l.indexOf b := by
  have hia : l.indexOf a < l.length := List.indexOf_lt_length.mpr ha
  have hib : l.indexOf b < l.length := List.indexOf_lt_length.mpr hb
  rcases lt_trichotomy (l.indexOf a) (l.indexOf b) with h | h | h
  · exact h
  · exfalso
    apply hab
    have h1 := List.getElem_indexOf hia
    have h2 := List.getElem_indexOf hib
    have h3 : l[l.indexOf a] = l[l.indexOf b] := by congr 1
    rw [h1, h2] at h3
    exact h3
  · exfalso
    apply hnr
    have := List.pairwise_iff_getElem.mp hs _ _ hib hia h
    rwa [List.getElem_indexOf hib, List.getElem_indexOf hia] at this

lemma mem_take_of_indexOf_lt [DecidableEq α] {l : List α} {a : α} {k : ℕ}
    (hmem : a ∈ l) (hk : l.indexOf a < k) : a ∈ l.take k := by
  have hia : l.indexOf a < l.length := List.indexOf_lt_length.mpr hmem
  have hlen : l.indexOf a < (l.take k).length := by
    rw [List.length_take]; exact lt_min hk hia
  refine List.mem_iff_getElem.mpr ⟨l.indexOf a, hlen, ?_⟩
  rw [List.getElem_take, List.getElem_indexOf hia]

lemma indexOf_lt_of_mem_take [DecidableEq α] {l : List α} {a : α} {k : ℕ}
    (h : a ∈ l.take k) : l.indexOf a < k := by
  rcases List.mem_iff_getElem.mp h with ⟨i, hi, he⟩
  have hik : i < k := lt_of_lt_of_le hi (by rw [List.length_take]; exact min_le_left _ _)
  have hil : i < l.length := lt_of_lt_of_le hi (by rw [List.length_take]; exact min_le_right _ _)
  have he' : l[i] = a := by rw [← List.getElem_take (L := l) (h := hi)]; exact he
  exact lt_of_le_of_lt (indexOf_le_of_getElem hil he') hik

/-- C4: `recall_memory` ranks by
`final_score = 0.7 × similarity + 0.3 × significance`, sorted descending;
without a query every candidate enters with the neutral score 0.5, so the
order degenerates to pure significance order; and of two candidates with
the same similarity score, the one with strictly higher significance is
ranked strictly earlier whenever the other one is returned at all. -/
theorem recall_ranking :
    (∀ (cs : List Candidate) (limit : ℕ),
      (rankMemories cs limit).Sorted candLe) ∧
    (∀ (g : Graph), ∀ c ∈ noQueryCandidates g, c.score = 1/2) ∧
    (∀ a b : Candidate, a.score = b.score →
      (candLe a b ↔ b.significance ≤ a.significance)) ∧
    (∀ (cs : List Candidate) (limit : ℕ) (a b : Candidate),
      a ∈ cs → b ∈ cs → a.score = b.score →
      b.significance < a.significance → b ∈ rankMemories cs limit →
      a ∈ rankMemories cs limit ∧
        (rankMemories cs limit).indexOf a < (rankMemories cs limit).indexOf b) := by
  refine ⟨?_, ?_, ?_, ?_⟩
  · intro cs limit
    exact List.Pairwise.sublist (List.take_sublist _ _)
      (List.sorted_insertionSort candLe cs)
  · intro g c hc
    rcases List.mem_filterMap.mp hc with ⟨e, _, hfe⟩
    rcases Option.map_eq_some'.mp hfe with ⟨s, _, hc'⟩
    rw [← hc']
  · intro a b hsc
    unfold candLe finalScore
    rw [hsc]
    constructor
    · intro h; nlinarith
    · intro h; nlinarith
  · intro cs limit a b ha hb hsc hsl hbt
    have hsort : (List.insertionSort candLe cs).Sorted candLe :=
      List.sorted_insertionSort candLe cs
    have hperm := List.perm_insertionSort candLe cs
    have hal : a ∈ List.insertionSort candLe cs := hperm.mem_iff.mpr ha
    have hbl : b ∈ List.insertionSort candLe cs := hperm.mem_iff.mpr hb
    have hfab : finalScore b < finalScore a := by
      unfold finalScore
      rw [hsc]
      have := mul_lt_mul_of_pos_right hsl (show (0:ℚ) < 3/10 by norm_num)
      linarith
    have hne : a ≠ b := fun he => lt_irrefl _ (he ▸ hsl)
    have hnr : ¬ candLe b a := not_le.mpr hfab
    have hil := sorted_indexOf_lt hsort hal hbl hne hnr
    have hbt' : b ∈ (List.insertionSort candLe cs).take limit := hbt
    have hbk : (List.insertionSort candLe cs).indexOf b < limit :=
      indexOf_lt_of_mem_take hbt'
    have hat : a ∈ (List.insertionSort candLe cs).take limit :=
      mem_take_of_indexOf_lt hal (lt_trans hil hbk)
    have hsort_t : ((List.insertionSort candLe cs).take limit).Sorted candLe :=
      List.Pairwise.sublist (List.take_sublist _ _) hsort
    exact ⟨hat, sorted_indexOf_lt hsort_t hat hbt' hne hnr⟩

/-- Two candidates with equal similarity 0.5 and different significance. -/
def cW1 : Candidate := ⟨"a", Rat.divInt 1 2, 1⟩

def cW2 : Candidate := ⟨"b", Rat.divInt 1 2, 0⟩

def csW : List Candidate := [cW2, cW1]

/-- Witness for C4 at two concrete candidates with equal similarity score:
both are returned and the higher-significance one ranks strictly earlier. -/
theorem recall_ranking_witness :
    (cW1 ∈ csW ∧ cW2 ∈ csW ∧ cW1.score = cW2.score ∧
      cW2.significance < cW1.significance ∧ cW2 ∈ rankMemories csW 10) ∧
    (cW1 ∈ rankMemories csW 10 ∧
      (rankMemories csW 10).indexOf cW1 < (rankMemories csW 10).indexOf cW2) := by
  have heq : rankMemories csW 10 = List.insertionSort candLe csW := by
    unfold rankMemories
    exact List.take_of_length_le (by rw [List.length_insertionSort]; decide)
  have hmem2 : cW2 ∈ rankMemories csW 10 := by
    rw [heq]
    exact (List.perm_insertionSort candLe csW).mem_iff.mpr (by decide)
  exact ⟨⟨by decide, by decide, by decide, by decide, hmem2⟩,
    recall_ranking.2.2.2 csW 10 cW1 cW2 (by decide) (by decide) (by decide)
      (by decide) hmem2⟩

/-! ### Store-level facts about `handleEncodeMemory` -/

lemma resolveCount_congr {h h' : Graph} (he : h'.events = h.events)
    (ha : h'.agents = h.agents) (hn : h'.entities = h.entities)
    (ht : h'.targets = h.targets) (ho : h'.others = h.others) :
    ∀ i, h'.resolveCount i = h.resolveCount i := by
  intro i
  unfold Graph.resolveCount
  rw [he, ha, hn, ht, ho]

/-- All stores except the three edge stores the encode pipeline appends to. -/
def EncFixed (g h : Graph) : Prop :=
  h.events = g.events ∧ h.persons = g.persons ∧ h.agents = g.agents ∧
  h.entities = g.entities ∧ h.places = g.places ∧ h.catalysts = g.catalysts ∧
  h.targets = g.targets ∧ h.effects = g.effects ∧ h.others = g.others ∧
  h.participatedPersons = g.participatedPersons ∧
  h.participatedAgents = g.participatedAgents ∧
  h.involvedIn = g.involvedIn ∧ h.producedE = g.producedE ∧
  h.heldAt = g.heldAt ∧ h.catalyzedBy = g.catalyzedBy ∧ h.bonds = g.bonds

lemma encFixed_refl (g : Graph) : EncFixed g g := by
  unfold EncFixed
  repeat' constructor

lemma encStepInvolves_fixed {g h : Graph} (newId : String) (r : InvolveRef)
    (hf : EncFixed g h) : EncFixed g (encStepInvolves newId h r) := by
  unfold EncFixed at hf ⊢
  unfold encStepInvolves
  exact hf

lemma encStepPreceded_fixed {g h : Graph} (newId : String) (pid : String)
    (hf : EncFixed g h) : EncFixed g (encStepPreceded newId h pid) := by
  unfold EncFixed at hf ⊢
  unfold encStepPreceded
  exact hf

lemma encStepConsolidated_fixed {g h : Graph} (newId : String)
    (c : ConsolidateRef) (hf : EncFixed g h) :
    EncFixed g (encStepConsolidated newId h c) := by
  unfold EncFixed at hf ⊢
  unfold encStepConsolidated
  exact hf

lemma encApply_fixed (emb : List ℚ) (newId : String) (now : ℕ)
    (a : EncodeArgs) (g : Graph) :
    EncFixed (encG1 emb newId now a g) (encApply emb newId now a g) := by
  unfold encApply
  refine foldl_preserve (Q := EncFixed (encG1 emb newId now a g))
    (fun b x hb => encStepConsolidated_fixed newId x hb) a.consolidates_to _ ?_
  refine foldl_preserve (Q := EncFixed (encG1 emb newId now a g))
    (fun b x hb => encStepPreceded_fixed newId x hb) a.precedes _ ?_
  refine foldl_preserve (Q := EncFixed (encG1 emb newId now a g))
    (fun b x hb => encStepInvolves_fixed newId x hb) a.involves _ ?_
  exact encFixed_refl _

lemma encFixed_resolveCount {g h : Graph} (hf : EncFixed g h) :
    ∀ i, h.resolveCount i = g.resolveCount i :=
  resolveCount_congr hf.1 hf.2.2.1 hf.2.2.2.1 hf.2.2.2.2.2.2.1 hf.2.2.2.2.2.2.2.2.1

lemma involvesFold_edges (newId : String) :
    ∀ (rs : List InvolveRef) (h : Graph),
      (rs.foldl (encStepInvolves newId) h).involvesEdges =
        h.involvesEdges ++ rs.flatMap (fun r =>
          List.replicate (h.resolveCount r.entity_id)
            ⟨newId, r.entity_id, r.role, r.salience⟩) := by
  intro rs
  induction rs with
  | nil => intro h; simp
  | cons r rs ih =>
      intro h
      rw [List.foldl_cons, ih, List.flatMap_cons]
      have hrc : ∀ i, (encStepInvolves newId h r).resolveCount i =
          h.resolveCount i :=
        encFixed_resolveCount (encStepInvolves_fixed newId r (encFixed_refl h))
      simp only [hrc]
      show h.involvesEdges ++ _ ++ _ = _
      rw [List.append_assoc]

lemma precededFold_edges (newId : String) :
    ∀ (ps : List String) (h : Graph),
      (ps.foldl (encStepPreceded newId) h).precededEdges =
        h.precededEdges ++ ps.flatMap (fun pid =>
          List.replicate (h.events.filter (fun e => e.id = pid)).length
            ⟨pid, newId, Rat.divInt 4 5⟩) := by
  intro ps
  induction ps with
  | nil => intro h; simp
  | cons pid ps ih =>
      intro h
      rw [List.foldl_cons, ih, List.flatMap_cons]
      have hev : (encStepPreceded newId h pid).events = h.events :=
        (encStepPreceded_fixed newId pid (encFixed_refl h)).1
      simp only [hev]
      show h.precededEdges ++ _ ++ _ = _
      rw [List.append_assoc]

lemma consolidatedFold_edges (newId : String) :
    ∀ (cs : List ConsolidateRef) (h : Graph),
      (cs.foldl (encStepConsolidated newId) h).consolidatedEdges =
        h.consolidatedEdges ++ cs.flatMap (fun c =>
          List.replicate (h.resolveCount c.target_id)
            ⟨newId, c.target_id, c.strength, c.ctype, 1⟩) := by
  intro cs
  induction cs with
  | nil => intro h; simp
  | cons c cs ih =>
      intro h
      rw [List.foldl_cons, ih, List.flatMap_cons]
      have hrc : ∀ i, (encStepConsolidated newId h c).resolveCount i =
          h.resolveCount i :=
        encFixed_resolveCount (encStepConsolidated_fixed newId c (encFixed_refl h))
      simp only [hrc]
      show h.consolidatedEdges ++ _ ++ _ = _
      rw [List.append_assoc]

lemma encApply_involvesEdges (emb : List ℚ) (newId : String) (now : ℕ)
    (a : EncodeArgs) (g : Graph) :
    (encApply emb newId now a g).involvesEdges =
      g.involvesEdges ++ a.involves.flatMap (fun r =>
        List.replicate ((encG1 emb newId now a g).resolveCount r.entity_id)
          ⟨newId, r.entity_id, r.role, r.salience⟩) := by
  unfold encApply
  rw [show ∀ (cs : List ConsolidateRef) (h : Graph),
      (cs.foldl (encStepConsolidated newId) h).involvesEdges = h.involvesEdges from
    fun cs h => foldl_preserve (Q := fun h' : Graph => h'.involvesEdges = h.involvesEdges)
      (fun b x hb => by unfold encStepConsolidated; simpa using hb) cs h rfl]
  rw [show ∀ (ps : List String) (h : Graph),
      (ps.foldl (encStepPreceded newId) h).involvesEdges = h.involvesEdges from
    fun ps h => foldl_preserve (Q := fun h' : Graph => h'.involvesEdges = h.involvesEdges)
      (fun b x hb => by unfold encStepPreceded; simpa using hb) ps h rfl]
  rw [involvesFold_edges]
  rfl

lemma encApply_precededEdges (emb : List ℚ) (newId : String) (now : ℕ)
    (a : EncodeArgs) (g : Graph) :
    (encApply emb newId now a g).precededEdges =
      g.precededEdges ++ a.precedes.flatMap (fun pid =>
        List.replicate
          (((encG1 emb newId now a g).events.filter
            (fun e => e.id = pid)).length)
          ⟨pid, newId, Rat.divInt 4 5⟩) := by
  unfold encApply
  rw [show ∀ (cs : List ConsolidateRef) (h : Graph),
      (cs.foldl (encStepConsolidated newId) h).precededEdges = h.precededEdges from
    fun cs h => foldl_preserve (Q := fun h' : Graph => h'.precededEdges = h.precededEdges)
      (fun b x hb => by unfold encStepConsolidated; simpa using hb) cs h rfl]
  rw [precededFold_edges]
  have hIfix : EncFixed (encG1 emb newId now a g)
      (a.involves.foldl (encStepInvolves newId) (encG1 emb newId now a g)) :=
    foldl_preserve (Q := EncFixed (encG1 emb newId now a g))
      (fun b x hb => encStepInvolves_fixed newId x hb) a.involves _
      (encFixed_refl _)
  rw [hIfix.1]
  rw [show (a.involves.foldl (encStepInvolves newId)
        (encG1 emb newId now a g)).precededEdges =
      (encG1 emb newId now a g).precededEdges from
    foldl_preserve (Q := fun h' : Graph =>
        h'.precededEdges = (encG1 emb newId now a g).precededEdges)
      (fun b x hb => by unfold encStepInvolves; simpa using hb) a.involves _ rfl]
  rfl

lemma encApply_consolidatedEdges (emb : List ℚ) (newId : String) (now : ℕ)
    (a : EncodeArgs) (g : Graph) :
    (encApply emb newId now a g).consolidatedEdges =
      g.consolidatedEdges ++ a.consolidates_to.flatMap (fun c =>
        List.replicate ((encG1 emb newId now a g).resolveCount c.target_id)
          ⟨newId, c.target_id, c.strength, c.ctype, 1⟩) := by
  unfold encApply
  rw [consolidatedFold_edges]
  have hIPfix : EncFixed (encG1 emb newId now a g)
      (a.precedes.foldl (encStepPreceded newId)
        (a.involves.foldl (encStepInvolves newId) (encG1 emb newId now a g))) := by
    refine foldl_preserve (Q := EncFixed (encG1 emb newId now a g))
      (fun b x hb => encStepPreceded_fixed newId x hb) a.precedes _ ?_
    exact foldl_preserve (Q := EncFixed (encG1 emb newId now a g))
      (fun b x hb => encStepInvolves_fixed newId x hb) a.involves _
      (encFixed_refl _)
  simp only [encFixed_resolveCount hIPfix]
  have hcons : (a.precedes.foldl (encStepPreceded newId)
        (a.involves.foldl (encStepInvolves newId)
          (encG1 emb newId now a g))).consolidatedEdges =
      (encG1 emb newId now a g).consolidatedEdges := by
    refine foldl_preserve (Q := fun h' : Graph =>
        h'.consolidatedEdges = (encG1 emb newId now a g).consolidatedEdges)
      (fun b x hb => by unfold encStepPreceded; simpa using hb) a.precedes _ ?_
    exact foldl_preserve (Q := fun h' : Graph =>
        h'.consolidatedEdges = (encG1 emb newId now a g).consolidatedEdges)
      (fun b x hb => by unfold encStepInvolves; simpa using hb) a.involves _ rfl
  rw [hcons]
  rfl

/-- Case split of a whole `encodeMemory` call: either it failed and the
graph is untouched, or it committed `encApply` on a fresh event id. -/
lemma encodeMemory_spec (embed : String → Option (List ℚ)) (newId : String)
    (now : ℕ) (a : EncodeArgs) (g : Graph) :
    ((encodeMemory embed newId now a g).ok = false ∧
      (encodeMemory embed newId now a g).graph = g) ∨
    (∃ emb, embed (embeddingText a.event) = some emb ∧
      (g.events.filter (fun e => e.id = newId)).isEmpty ∧
      (encodeMemory embed newId now a g).ok = true ∧
      (encodeMemory embed newId now a g).graph = encApply emb newId now a g) := by
  unfold encodeMemory
  split
  · left; exact ⟨rfl, rfl⟩
  · split
    · left; exact ⟨rfl, rfl⟩
    · cases hemb : embed (embeddingText a.event) with
      | none => left; exact ⟨rfl, rfl⟩
      | some emb =>
          by_cases hfresh : (g.events.filter (fun e => e.id = newId)).isEmpty
          · right
            refine ⟨emb, rfl, hfresh, ?_, ?_⟩ <;>
              simp only [encodeTxBody, hfresh, if_true]
          · left
            rw [Bool.not_eq_true] at hfresh
            constructor <;>
              simp only [encodeTxBody, hfresh, Bool.false_eq_true, if_false]

/-! ### Claim C3 — transactional atomicity of the two write pipelines -/

/-- C3: each write pipeline either commits the Event together with every
block relationship its references resolve to, or rolls the whole
transaction back leaving the graph exactly as it was — no Event is ever
visible half-bound. -/
theorem write_pipelines_atomic :
    (∀ (embed : String → Option (List ℚ)) (newId : String) (now : ℕ)
        (a : EncodeArgs) (g : Graph),
      ((encodeMemory embed newId now a g).ok = false →
        (encodeMemory embed newId now a g).graph = g) ∧
      ((encodeMemory embed newId now a g).ok = true →
        (∃ ev ∈ (encodeMemory embed newId now a g).graph.events,
          ev.id = newId) ∧
        (∀ r ∈ a.involves,
          0 < (encodeMemory embed newId now a g).graph.resolveCount r.entity_id →
          (⟨newId, r.entity_id, r.role, r.salience⟩ : InvolvesEdge) ∈
            (encodeMemory embed newId now a g).graph.involvesEdges) ∧
        (∀ pid ∈ a.precedes,
          (∃ e ∈ (encodeMemory embed newId now a g).graph.events, e.id = pid) →
          (⟨pid, newId, Rat.divInt 4 5⟩ : PrecededEdge) ∈
            (encodeMemory embed newId now a g).graph.precededEdges) ∧
        (∀ c ∈ a.consolidates_to,
          0 < (encodeMemory embed newId now a g).graph.resolveCount c.target_id →
          (⟨newId, c.target_id, c.strength, c.ctype, 1⟩ : ConsolidatedEdge) ∈
            (encodeMemory embed newId now a g).graph.consolidatedEdges))) ∧
    (∀ (genId : String) (now : ℕ) (a : WriteEventArgs) (g : Graph),
      ((writeEvent genId now a g).ok = false →
        (writeEvent genId now a g).graph = g) ∧
      ((writeEvent genId now a g).ok = true →
        (∃ ev ∈ (writeEvent genId now a g).graph.events,
          ev.id = weEventId a genId) ∧
        (∀ n : String, (⟨n, "person"⟩ : WhoRef) ∈ a.who →
          n ∈ (writeEvent genId now a g).graph.persons ∧
          (n, weEventId a genId) ∈
            (writeEvent genId now a g).graph.participatedPersons) ∧
        (∀ n : String, (⟨n, "agent"⟩ : WhoRef) ∈ a.who →
          n ∈ (writeEvent genId now a g).graph.agents ∧
          (n, weEventId a genId) ∈
            (writeEvent genId now a g).graph.participatedAgents) ∧
        (∀ p : String, jsOrNullStr a.«where» = some p →
          p ∈ (writeEvent genId now a g).graph.places ∧
          (weEventId a genId, p) ∈ (writeEvent genId now a g).graph.heldAt) ∧
        (∀ r ∈ a.why,
          r ∈ (writeEvent genId now a g).graph.catalysts ∧
          (weEventId a genId, r) ∈ (writeEvent genId now a g).graph.catalyzedBy) ∧
        (∀ r ∈ a.what_entities,
          r.id ∈ (writeEvent genId now a g).graph.entities.map EntityNode.id ∧
          (r.id, weEventId a genId) ∈ (writeEvent genId now a g).graph.involvedIn) ∧
        (∀ r ∈ a.what_produced,
          r.id ∈ (writeEvent genId now a g).graph.entities.map EntityNode.id ∧
          (weEventId a genId, r.id) ∈ (writeEvent genId now a g).graph.producedE) ∧
        (∀ f ∈ a.effects,
          (f.target_id, f.target_kind) ∈ (writeEvent genId now a g).graph.targets ∧
          (⟨weEventId a genId, f.summary, f.valence, f.intensity, f.target_id,
            f.target_kind⟩ : EffectOcc) ∈
            (writeEvent genId now a g).graph.effects))) := by
  constructor
  · intro embed newId now a g
    rcases encodeMemory_spec embed newId now a g with ⟨hok, hg⟩ | ⟨emb, _, _, hok, hg⟩
    · refine ⟨fun _ => hg, fun h => absurd h (by simp [hok])⟩
    · refine ⟨fun h => absurd h (by simp [hok]), fun _ => ?_⟩
      have hfix := encApply_fixed emb newId now a g
      have hres := encFixed_resolveCount hfix
      have hevents : (encodeMemory embed newId now a g).graph.events =
          g.events ++ [encEventNode emb newId now a.event] := by
        rw [hg, hfix.1]; rfl
      refine ⟨?_, ?_, ?_, ?_⟩
      · refine ⟨encEventNode emb newId now a.event, ?_, rfl⟩
        rw [hevents]
        simp
      · intro r hr hpos
        rw [hg] at hpos ⊢
        rw [encApply_involvesEdges]
        refine List.mem_append_right _ ?_
        refine List.mem_flatMap.mpr ⟨r, hr, ?_⟩
        refine List.mem_replicate.mpr ⟨?_, rfl⟩
        rw [hres r.entity_id] at hpos
        omega
      · intro pid hp hev
        rw [hg] at hev ⊢
        rw [encApply_precededEdges]
        refine List.mem_append_right _ ?_
        refine List.mem_flatMap.mpr ⟨pid, hp, ?_⟩
        refine List.mem_replicate.mpr ⟨?_, rfl⟩
        rcases hev with ⟨e, he, hid⟩
        rw [hfix.1] at he
        have : e ∈ (encG1 emb newId now a g).events.filter
            (fun e' => e'.id = pid) :=
          List.mem_filter.mpr ⟨he, by simp [hid]⟩
        have := List.length_pos.mpr (List.ne_nil_of_mem this)
        omega
      · intro c hc hpos
        rw [hg] at hpos ⊢
        rw [encApply_consolidatedEdges]
        refine List.mem_append_right _ ?_
        refine List.mem_flatMap.mpr ⟨c, hc, ?_⟩
        refine List.mem_replicate.mpr ⟨?_, rfl⟩
        rw [hres c.target_id] at hpos
        omega
  · intro genId now a g
    by_cases hfresh : (g.events.filter (fun e => e.id = weEventId a genId)).isEmpty
    · obtain ⟨hok, hgr⟩ := writeEvent_ok_graph (t := now) hfresh
      refine ⟨fun h => absurd h (by simp [hok]), fun _ => ?_⟩
      rw [hgr]
      refine ⟨?_, ?_, ?_, ?_, ?_, ?_, ?_, ?_⟩
      · refine ⟨hipEventNode (weEventId a genId) (a.happened_at.getD now) a, ?_, rfl⟩
        rw [weApply_events]
        simp
      · intro n hn; exact weApply_person _ _ a g hn
      · intro n hn; exact weApply_agent _ _ a g hn
      · intro p hp; exact weApply_place _ _ a g hp
      · intro r hr; exact weApply_why _ _ a g hr
      · intro r hr; exact weApply_entity _ _ a g hr
      · intro r hr; exact weApply_produced _ _ a g hr
      · intro f hf; exact weApply_effect _ _ a g hf
    · obtain ⟨hok, hgr⟩ := writeEvent_err_graph (t := now) hfresh
      exact ⟨fun _ => hgr, fun h => absurd h (by simp [hok])⟩

/-- A trivially succeeding embedding provider. -/
def embedOk : String → Option (List ℚ) := fun _ => some []

/-- An `encode_memory` payload involving the existing node `A`. -/
def encInv : EncodeArgs :=
  { event := encOkArgs.event, involves := [⟨"A", "subject", 1⟩] }

/-- A `hippocampus_write_event` payload with one person and a place. -/
def waW : WriteEventArgs :=
  { title := "kickoff", description := "d",
    who := [⟨"Alice", "person"⟩], «where» := some "HQ" }

/-- Witness for C3: a committed `encode_memory` call carries its INVOLVES
edge, and a committed `hippocampus_write_event` call carries its Person
binding. -/
theorem write_pipelines_atomic_witness :
    ((encodeMemory embedOk "e1" 1 encInv gAB).ok = true ∧
      (⟨"A", "subject", 1⟩ : InvolveRef) ∈ encInv.involves ∧
      0 < (encodeMemory embedOk "e1" 1 encInv gAB).graph.resolveCount "A" ∧
      (⟨"e1", "A", "subject", 1⟩ : InvolvesEdge) ∈
        (encodeMemory embedOk "e1" 1 encInv gAB).graph.involvesEdges) ∧
    ((writeEvent "w1" 1 waW Graph.empty).ok = true ∧
      (⟨"Alice", "person"⟩ : WhoRef) ∈ waW.who ∧
      "Alice" ∈ (writeEvent "w1" 1 waW Graph.empty).graph.persons) :=
  ⟨⟨by decide, by decide, by decide,
    ((write_pipelines_atomic.1 embedOk "e1" 1 encInv gAB).2 (by decide)).2.1
      ⟨"A", "subject", 1⟩ (by decide) (by decide)⟩,
  ⟨by decide, by decide,
    (((write_pipelines_atomic.2 "w1" 1 waW Graph.empty).2 (by decide)).2.1
      "Alice" (by decide)).1⟩⟩

/-! ### Claim C10 — unresolved references are silently skipped -/

/-- C10: in `encode_memory`, a reference in `involves` / `precedes` /
`consolidates_to` whose identifier binds no node is silently skipped: the
per-reference `MATCH` binds nothing, so no relationship and no placeholder
node is created for it, no error is raised, and the transaction still
commits the Event — the call reports success anyway. -/
theorem encode_unresolved_refs_skipped
    (embed : String → Option (List ℚ)) (newId : String) (now : ℕ)
    (a : EncodeArgs) (g : Graph)
    (hval : ¬ (a.event.emotional_valence < -1 ∨ 1 < a.event.emotional_valence))
    (hsig : ¬ (a.event.significance < 0 ∨ 1 < a.event.significance))
    (hembed : ∃ emb, embed (embeddingText a.event) = some emb)
    (hfresh : (g.events.filter (fun e => e.id = newId)).isEmpty) :
    (encodeMemory embed newId now a g).ok = true ∧
    ((encodeMemory embed newId now a g).graph.persons = g.persons ∧
      (encodeMemory embed newId now a g).graph.agents = g.agents ∧
      (encodeMemory embed newId now a g).graph.entities = g.entities ∧
      (encodeMemory embed newId now a g).graph.places = g.places ∧
      (encodeMemory embed newId now a g).graph.catalysts = g.catalysts ∧
      (encodeMemory embed newId now a g).graph.targets = g.targets ∧
      (encodeMemory embed newId now a g).graph.others = g.others ∧
      (encodeMemory embed newId now a g).graph.effects = g.effects) ∧
    (∃ ev, (encodeMemory embed newId now a g).graph.events = g.events ++ [ev] ∧
      ev.id = newId) ∧
    (∀ r ∈ a.involves,
      (encodeMemory embed newId now a g).graph.resolveCount r.entity_id = 0 →
      ∀ e ∈ (encodeMemory embed newId now a g).graph.involvesEdges,
        e.entityId = r.entity_id → e ∈ g.involvesEdges) ∧
    (∀ pid ∈ a.precedes,
      (∀ e ∈ (encodeMemory embed newId now a g).graph.events, e.id ≠ pid) →
      ∀ ed ∈ (encodeMemory embed newId now a g).graph.precededEdges,
        ed.fromId = pid → ed ∈ g.precededEdges) ∧
    (∀ c ∈ a.consolidates_to,
      (encodeMemory embed newId now a g).graph.resolveCount c.target_id = 0 →
      ∀ ed ∈ (encodeMemory embed newId now a g).graph.consolidatedEdges,
        ed.targetId = c.target_id → ed ∈ g.consolidatedEdges) := by
  rcases hembed with ⟨emb, hemb⟩
  have hcall : (encodeMemory embed newId now a g).ok = true ∧
      (encodeMemory embed newId now a g).graph = encApply emb newId now a g := by
    unfold encodeMemory
    rw [if_neg hval, if_neg hsig, hemb]
    constructor <;> simp only [encodeTxBody, hfresh, if_true]
  obtain ⟨hok, hg⟩ := hcall
  have hfix := encApply_fixed emb newId now a g
  have hres := encFixed_resolveCount hfix
  refine ⟨hok, ?_, ?_, ?_, ?_, ?_⟩
  · rw [hg]
    exact ⟨hfix.2.1, hfix.2.2.1, hfix.2.2.2.1, hfix.2.2.2.2.1,
      hfix.2.2.2.2.2.1, hfix.2.2.2.2.2.2.1, hfix.2.2.2.2.2.2.2.2.1,
      hfix.2.2.2.2.2.2.2.1⟩
  · refine ⟨encEventNode emb newId now a.event, ?_, rfl⟩
    rw [hg, hfix.1]; rfl
  · intro r hr hzero e he hid
    rw [hg] at hzero he
    rw [encApply_involvesEdges] at he
    rcases List.mem_append.mp he with h | h
    · exact h
    · exfalso
      rcases List.mem_flatMap.mp h with ⟨r', _, hrep⟩
      obtain ⟨hn, rfl⟩ := List.mem_replicate.mp hrep
      apply hn
      have heq : r'.entity_id = r.entity_id := hid
      rw [heq, ← hres r.entity_id]
      exact hzero
  · intro pid hp hnone ed hed hid
    rw [hg] at hnone hed
    rw [encApply_precededEdges] at hed
    rcases List.mem_append.mp hed with h | h
    · exact h
    · exfalso
      rcases List.mem_flatMap.mp h with ⟨pid', _, hrep⟩
      obtain ⟨hn, rfl⟩ := List.mem_replicate.mp hrep
      apply hn
      have hpid : pid' = pid := hid
      subst hpid
      rw [List.length_eq_zero]
      refine List.filter_eq_nil_iff.mpr ?_
      intro e he'
      have : e ∈ (encApply emb newId now a g).events := by rw [hfix.1]; exact he'
      simpa using hnone e this
  · intro c hc hzero ed hed hid
    rw [hg] at hzero hed
    rw [encApply_consolidatedEdges] at hed
    rcases List.mem_append.mp hed with h | h
    · exact h
    · exfalso
      rcases List.mem_flatMap.mp h with ⟨c', _, hrep⟩
      obtain ⟨hn, rfl⟩ := List.mem_replicate.mp hrep
      apply hn
      have heq : c'.target_id = c.target_id := hid
      rw [heq, ← hres c.target_id]
      exact hzero

/-- An `encode_memory` payload whose references all fail to resolve. -/
def encMiss : EncodeArgs :=
  { event := encOkArgs.event,
    involves := [⟨"ghost", "subject", 1⟩],
    precedes := ["nope"],
    consolidates_to := [⟨"ghost2", 1, "semantic"⟩] }

/-- Witness for C10 on the empty graph: the call succeeds, yet no INVOLVES
edge exists for the unresolvable id `ghost`. -/
theorem encode_unresolved_refs_skipped_witness :
    (¬ (encMiss.event.emotional_valence < -1 ∨
          1 < encMiss.event.emotional_valence) ∧
      ¬ (encMiss.event.significance < 0 ∨ 1 < encMiss.event.significance) ∧
      embedOk (embeddingText encMiss.event) = some [] ∧
      (Graph.empty.events.filter (fun e => e.id = "e9")).isEmpty ∧
      (⟨"ghost", "subject", 1⟩ : InvolveRef) ∈ encMiss.involves ∧
      (encodeMemory embedOk "e9" 1 encMiss Graph.empty).graph.resolveCount
        "ghost" = 0) ∧
    ((encodeMemory embedOk "e9" 1 encMiss Graph.empty).ok = true ∧
      (∀ e ∈ (encodeMemory embedOk "e9" 1 encMiss Graph.empty).graph.involvesEdges,
        e.entityId = "ghost" → e ∈ Graph.empty.involvesEdges)) := by
  have h := encode_unresolved_refs_skipped embedOk "e9" 1 encMiss Graph.empty
    (by decide) (by decide) ⟨[], rfl⟩ (by decide)
  exact ⟨⟨by decide, by decide, rfl, by decide, by decide, by decide⟩,
    h.1, h.2.2.2.1 ⟨"ghost", "subject", 1⟩ (by decide) (by decide)⟩

/-! ### Claim C8 — reference upsert vs. fresh creation -/

lemma weG1_le (eid : String) (t : ℕ) (a : WriteEventArgs) (g : Graph) :
    StoreLe g (weG1 eid t a g) := by
  constructor <;> first
    | exact fun _ hx => hx
    | exact List.subset_append_left _ _

lemma writeEvent_ok_graph' {genId : String} {now : ℕ} {a : WriteEventArgs}
    {g : Graph} (hok : (writeEvent genId now a g).ok = true) :
    (writeEvent genId now a g).graph =
      weApply (weEventId a genId) (a.happened_at.getD now) a g := by
  by_cases hfresh : (g.events.filter (fun e => e.id = weEventId a genId)).isEmpty
  · exact (writeEvent_ok_graph (t := now) hfresh).2
  · exact absurd hok (by simp [(writeEvent_err_graph (t := now) hfresh).1])

lemma writeEvent_nodup (genId : String) (now : ℕ) (a : WriteEventArgs)
    {g : Graph} (hn : NodupStores g) :
    NodupStores (writeEvent genId now a g).graph := by
  rcases writeEvent_graph_cases genId now a g with h | h
  · rw [h]
    exact weApply_nodup _ _ _
      ⟨hn.persons, hn.agents, hn.entityIds, hn.places, hn.catalysts, hn.targets⟩
  · rw [h]
    exact hn

lemma filter_eq_length_one [DecidableEq α] {l : List α} {a : α}
    (hn : l.Nodup) (hm : a ∈ l) :
    (l.filter (fun x => x = a)).length = 1 := by
  induction l with
  | nil => cases hm
  | cons x xs ih =>
      rw [List.nodup_cons] at hn
      rcases List.mem_cons.mp hm with rfl | hmem
      · rw [List.filter_cons_of_pos (by simp)]
        have : xs.filter (fun y => y = a) = [] := by
          refine List.filter_eq_nil_iff.mpr ?_
          intro y hy
          simp only [decide_eq_true_eq]
          rintro rfl
          exact hn.1 hy
        rw [this]
        rfl
      · have hxa : x ≠ a := by
          rintro rfl
          exact hn.1 hmem
        rw [List.filter_cons_of_neg (by simpa using hxa)]
        exact ih hn.2 hmem

/-- C8: across two successful `hippocampus_write_event` calls,
identifier-bearing reference nodes are upserted (exactly one Person per
name, Agent per id, Entity per id, Place per name, Catalyst per text,
Target per (id, kind) exists afterwards), while each call creates a fresh
Event node and every effect entry creates a fresh Effect node even with
identical text. -/
theorem reference_upsert_idempotent
    (genId1 genId2 : String) (now1 now2 : ℕ) (a1 a2 : WriteEventArgs)
    (g : Graph) (hn : NodupStores g)
    (h1 : (writeEvent genId1 now1 a1 g).ok = true)
    (h2 : (writeEvent genId2 now2 a2
      (writeEvent genId1 now1 a1 g).graph).ok = true) :
    (∀ n : String, (⟨n, "person"⟩ : WhoRef) ∈ a1.who →
      (⟨n, "person"⟩ : WhoRef) ∈ a2.who →
      ((writeEvent genId2 now2 a2
        (writeEvent genId1 now1 a1 g).graph).graph.persons.filter
          (fun x => x = n)).length = 1) ∧
    (∀ n : String, (⟨n, "agent"⟩ : WhoRef) ∈ a1.who →
      (⟨n, "agent"⟩ : WhoRef) ∈ a2.who →
      ((writeEvent genId2 now2 a2
        (writeEvent genId1 now1 a1 g).graph).graph.agents.filter
          (fun x => x = n)).length = 1) ∧
    (∀ r1 r2 : EntityRef, r1 ∈ a1.what_entities → r2 ∈ a2.what_entities →
      r1.id = r2.id →
      (((writeEvent genId2 now2 a2
        (writeEvent genId1 now1 a1 g).graph).graph.entities.map
          EntityNode.id).filter (fun x => x = r2.id)).length = 1) ∧
    (∀ p : String, jsOrNullStr a1.«where» = some p →
      jsOrNullStr a2.«where» = some p →
      ((writeEvent genId2 now2 a2
        (writeEvent genId1 now1 a1 g).graph).graph.places.filter
          (fun x => x = p)).length = 1) ∧
    (∀ r : String, r ∈ a1.why → r ∈ a2.why →
      ((writeEvent genId2 now2 a2
        (writeEvent genId1 now1 a1 g).graph).graph.catalysts.filter
          (fun x => x = r)).length = 1) ∧
    (∀ f1 f2 : EffectArg, f1 ∈ a1.effects → f2 ∈ a2.effects →
      f1.target_id = f2.target_id → f1.target_kind = f2.target_kind →
      ((writeEvent genId2 now2 a2
        (writeEvent genId1 now1 a1 g).graph).graph.targets.filter
          (fun x => x = (f2.target_id, f2.target_kind))).length = 1) ∧
    ((writeEvent genId2 now2 a2
        (writeEvent genId1 now1 a1 g).graph).graph.events.length =
      g.events.length + 2) ∧
    ((writeEvent genId2 now2 a2
        (writeEvent genId1 now1 a1 g).graph).graph.effects.length =
      g.effects.length + a1.effects.length + a2.effects.length) := by
  have hg1 := writeEvent_ok_graph' h1
  have hg2 := writeEvent_ok_graph' h2
  have hn2 : NodupStores (writeEvent genId2 now2 a2
      (writeEvent genId1 now1 a1 g).graph).graph :=
    writeEvent_nodup _ _ _ (writeEvent_nodup _ _ _ hn)
  refine ⟨?_, ?_, ?_, ?_, ?_, ?_, ?_, ?_⟩
  · intro n _ hm2
    refine filter_eq_length_one hn2.persons ?_
    rw [hg2]
    exact (weApply_person _ _ a2 _ hm2).1
  · intro n _ hm2
    refine filter_eq_length_one hn2.agents ?_
    rw [hg2]
    exact (weApply_agent _ _ a2 _ hm2).1
  · intro r1 r2 _ hm2 _
    refine filter_eq_length_one hn2.entityIds ?_
    rw [hg2]
    exact (weApply_entity _ _ a2 _ hm2).1
  · intro p _ hp2
    refine filter_eq_length_one hn2.places ?_
    rw [hg2]
    exact (weApply_place _ _ a2 _ hp2).1
  · intro r _ hr2
    refine filter_eq_length_one hn2.catalysts ?_
    rw [hg2]
    exact (weApply_why _ _ a2 _ hr2).1
  · intro f1 f2 _ hm2 _ _
    refine filter_eq_length_one hn2.targets ?_
    rw [hg2]
    exact (weApply_effect _ _ a2 _ hm2).1
  · rw [hg2, weApply_events, hg1, weApply_events]
    simp
  · rw [hg2, weApply_effects, hg1, weApply_effects]
    simp
    omega

/-- A second event payload also naming the Person "Alice". -/
def waW2 : WriteEventArgs :=
  { title := "t2", description := "d2", who := [⟨"Alice", "person"⟩] }

/-- Witness for C8: two calls both naming Person "Alice" leave exactly
one Person node "Alice" and two Event nodes. -/
theorem reference_upsert_idempotent_witness :
    ((writeEvent "w1" 1 waW Graph.empty).ok = true ∧
      (writeEvent "w2" 2 waW2 (writeEvent "w1" 1 waW Graph.empty).graph).ok =
        true ∧
      (⟨"Alice", "person"⟩ : WhoRef) ∈ waW.who ∧
      (⟨"Alice", "person"⟩ : WhoRef) ∈ waW2.who) ∧
    (((writeEvent "w2" 2 waW2
        (writeEvent "w1" 1 waW Graph.empty).graph).graph.persons.filter
          (fun x => x = "Alice")).length = 1 ∧
      (writeEvent "w2" 2 waW2
        (writeEvent "w1" 1 waW Graph.empty).graph).graph.events.length =
        Graph.empty.events.length + 2) := by
  have h := reference_upsert_idempotent "w1" "w2" 1 2 waW waW2 Graph.empty
    (by constructor <;> simp [Graph.empty]) (by decide) (by decide)
  exact ⟨⟨by decide, by decide, by decide, by decide⟩,
    h.1 "Alice" (by decide) (by decide), h.2.2.2.2.2.2.1⟩

/-! ### Claim C7 — zero-filter pattern completion -/

/-- Sort key of a returned view (`when` field, nulls largest). -/
def viewKey (v : EventView) : WithTop ℕ :=
  match v.whenAt with
  | some n => (n : WithTop ℕ)
  | none => ⊤

lemma length_flatMap_ones {α β : Type _} {f : α → List β} :
    ∀ l : List α, (∀ x ∈ l, (f x).length = 1) → (l.flatMap f).length = l.length := by
  intro l
  induction l with
  | nil => intro _; rfl
  | cons x xs ih =>
      intro h
      rw [List.flatMap_cons, List.length_append, h x (List.mem_cons_self x xs),
        ih (fun y hy => h y (List.mem_cons_of_mem x hy))]
      simp [Nat.add_comm]

lemma searchRowsOf_length {g : Graph} {e : EventNode}
    (hp : (g.placesOf e.id).length ≤ 1) : (searchRowsOf g e).length = 1 := by
  unfold searchRowsOf
  cases hpl : g.placesOf e.id with
  | nil => rfl
  | cons p ps =>
      rw [hpl] at hp
      simp only [List.length_cons] at hp
      have : ps = [] := List.length_eq_zero.mp (by omega)
      subst this
      rfl

lemma searchRows_length {g : Graph}
    (hp : ∀ e ∈ g.events, (g.placesOf e.id).length ≤ 1) :
    (searchRows g).length = g.events.length := by
  unfold searchRows
  exact length_flatMap_ones g.events
    (fun e he => searchRowsOf_length (hp e he))

lemma mem_searchRowsOf {g : Graph} {e : EventNode} {r : SearchRow}
    (hp : (g.placesOf e.id).length ≤ 1) (hr : r ∈ searchRowsOf g e) :
    r.event = e ∧ r.place = (g.placesOf e.id).head? := by
  unfold searchRowsOf at hr
  cases hpl : g.placesOf e.id with
  | nil =>
      rw [hpl] at hr
      simp only [List.mem_singleton] at hr
      subst hr
      simp [hpl]
  | cons p ps =>
      rw [hpl] at hr hp
      simp only [List.length_cons] at hp
      have : ps = [] := List.length_eq_zero.mp (by omega)
      subst this
      simp only [List.map_cons, List.map_nil, List.mem_singleton] at hr
      subst hr
      simp

lemma searchRowsOf_event {g : Graph} {e : EventNode} {r : SearchRow}
    (hr : r ∈ searchRowsOf g e) : r.event = e := by
  unfold searchRowsOf at hr
  cases hpl : g.placesOf e.id with
  | nil =>
      rw [hpl] at hr
      simp only [List.mem_singleton] at hr
      subst hr; rfl
  | cons p ps =>
      rw [hpl] at hr
      rcases List.mem_map.mp hr with ⟨q, _, rfl⟩
      rfl

lemma rows_filter_one {g : Graph} :
    ∀ (evs : List EventNode), ((evs.map EventNode.id).Nodup) →
      (∀ e' ∈ evs, (g.placesOf e'.id).length ≤ 1) →
      ∀ e ∈ evs,
        ((evs.flatMap (searchRowsOf g)).filter
          (fun r => r.event.id = e.id)).length = 1 := by
  intro evs
  induction evs with
  | nil => intro _ _ e he; cases he
  | cons e' evs ih =>
      intro hn hp e he
      rw [List.map_cons, List.nodup_cons] at hn
      rw [List.flatMap_cons, List.filter_append, List.length_append]
      rcases List.mem_cons.mp he with rfl | hmem
      · have hall : (searchRowsOf g e).filter (fun r => r.event.id = e.id) =
            searchRowsOf g e := by
          refine List.filter_eq_self.mpr ?_
          intro r hr
          simp [searchRowsOf_event hr]
        have hnone : (evs.flatMap (searchRowsOf g)).filter
            (fun r => r.event.id = e.id) = [] := by
          refine List.filter_eq_nil_iff.mpr ?_
          intro r hr
          rcases List.mem_flatMap.mp hr with ⟨e2, he2, hre2⟩
          rw [searchRowsOf_event hre2]
          simp only [decide_eq_true_eq]
          intro hcontra
          exact hn.1 (hcontra ▸ List.mem_map.mpr ⟨e2, he2, rfl⟩)
        rw [hall, hnone, searchRowsOf_length (hp e (List.mem_cons_self _ _))]
        rfl
      · have hzero : (searchRowsOf g e').filter
            (fun r => r.event.id = e.id) = [] := by
          refine List.filter_eq_nil_iff.mpr ?_
          intro r hr
          rw [searchRowsOf_event hr]
          simp only [decide_eq_true_eq]
          intro hcontra
          exact hn.1 (hcontra ▸ List.mem_map.mpr ⟨e, hmem, rfl⟩)
        rw [hzero]
        simp only [List.length_nil, Nat.zero_add]
        exact ih hn.2 (fun x hx => hp x (List.mem_cons_of_mem _ hx)) e hmem

lemma mem_pairProjFst {ps : List (String × String)} {eid n : String} :
    (n ∈ (((ps.filter (fun pr => pr.2 = eid)).map Prod.fst).dedup).filter
      (fun x => x ≠ "")) ↔ ((n, eid) ∈ ps ∧ n ≠ "") := by
  rw [List.mem_filter, List.mem_dedup, List.mem_map]
  constructor
  · rintro ⟨⟨pr, hpr, rfl⟩, hne⟩
    obtain ⟨hmem, hp2⟩ := List.mem_filter.mp hpr
    simp only [decide_eq_true_eq] at hp2
    refine ⟨?_, by simpa using hne⟩
    have : pr = (pr.1, eid) := by rw [← hp2]
    rwa [← this]
  · rintro ⟨hmem, hne⟩
    exact ⟨⟨(n, eid), List.mem_filter.mpr ⟨hmem, by simp⟩, rfl⟩, by simpa using hne⟩

lemma mem_pairProjSnd {ps : List (String × String)} {eid c : String} :
    (c ∈ (((ps.filter (fun pr => pr.1 = eid)).map Prod.snd).dedup).filter
      (fun x => x ≠ "")) ↔ ((eid, c) ∈ ps ∧ c ≠ "") := by
  rw [List.mem_filter, List.mem_dedup, List.mem_map]
  constructor
  · rintro ⟨⟨pr, hpr, rfl⟩, hne⟩
    obtain ⟨hmem, hp1⟩ := List.mem_filter.mp hpr
    simp only [decide_eq_true_eq] at hp1
    refine ⟨?_, by simpa using hne⟩
    have : pr = (eid, pr.2) := by rw [← hp1]
    rwa [← this]
  · rintro ⟨hmem, hne⟩
    exact ⟨⟨(eid, c), List.mem_filter.mpr ⟨hmem, by simp⟩, rfl⟩, by simpa using hne⟩

lemma filter_key_length_le_one {α K : Type _} [DecidableEq K] {key : α → K} :
    ∀ {l : List α}, ((l.map key).Nodup) → ∀ i : K,
      (l.filter (fun a => key a = i)).length ≤ 1 := by
  intro l
  induction l with
  | nil => intro _ i; simp
  | cons x xs ih =>
      intro hn i
      rw [List.map_cons, List.nodup_cons] at hn
      by_cases hx : key x = i
      · rw [List.filter_cons_of_pos (by simp [hx])]
        have : xs.filter (fun a => key a = i) = [] := by
          refine List.filter_eq_nil_iff.mpr ?_
          intro y hy
          simp only [decide_eq_true_eq]
          intro hcontra
          exact hn.1 ((hx ▸ hcontra) ▸ List.mem_map.mpr ⟨y, hy, rfl⟩)
        rw [this]
        simp
      · rw [List.filter_cons_of_neg (by simp [hx])]
        exact ih hn.2 i

lemma entityName_eq_some {g : Graph}
    (hentn : (g.entities.map EntityNode.id).Nodup) {i nm : String} :
    g.entityName i = some nm ↔ ∃ en ∈ g.entities, en.id = i ∧ en.name = nm := by
  unfold Graph.entityName
  constructor
  · intro h
    rcases Option.map_eq_some'.mp h with ⟨en, hh, hnm⟩
    have hmem := List.mem_of_mem_head? hh
    obtain ⟨hen, hid⟩ := List.mem_filter.mp hmem
    exact ⟨en, hen, by simpa using hid, hnm⟩
  · rintro ⟨en, hen, hid, hnm⟩
    have hmem : en ∈ g.entities.filter (fun en' => en'.id = i) :=
      List.mem_filter.mpr ⟨hen, by simp [hid]⟩
    have hle := filter_key_length_le_one hentn i
    have : g.entities.filter (fun en' => en'.id = i) = [en] := by
      cases hf : g.entities.filter (fun en' => en'.id = i) with
      | nil => rw [hf] at hmem; cases hmem
      | cons y ys =>
          rw [hf] at hle hmem
          simp only [List.length_cons] at hle
          have hys : ys = [] := List.length_eq_zero.mp (by omega)
          subst hys
          simp only [List.mem_singleton] at hmem
          rw [hmem]
    rw [this]
    simp [hnm]

lemma mem_effectsProj {fs : List EffectOcc} {eid : String}
    {tp : String × String × ℚ × String} :
    (tp ∈ (((fs.filter (fun f => f.eventId = eid)).map
      (fun f => (f.summary, f.valence, f.intensity, f.targetId))).dedup).filter
        (fun t => t.1 ≠ "")) ↔
    (∃ f ∈ fs, f.eventId = eid ∧
      tp = (f.summary, f.valence, f.intensity, f.targetId) ∧ f.summary ≠ "") := by
  rw [List.mem_filter, List.mem_dedup, List.mem_map]
  constructor
  · rintro ⟨⟨f, hf, rfl⟩, hne⟩
    obtain ⟨hmem, hev⟩ := List.mem_filter.mp hf
    exact ⟨f, hmem, by simpa using hev, rfl, by simpa using hne⟩
  · rintro ⟨f, hmem, hev, rfl, hne⟩
    exact ⟨⟨f, List.mem_filter.mpr ⟨hmem, by simp [hev]⟩, rfl⟩, by simpa using hne⟩

lemma mem_whatProj {g : Graph}
    (hentn : (g.entities.map EntityNode.id).Nodup) {eid nm : String} :
    (nm ∈ ((((g.involvedIn.filter (fun pr => pr.2 = eid)).map
      Prod.fst).filterMap g.entityName).dedup).filter (fun x => x ≠ "")) ↔
    (∃ en ∈ g.entities, (en.id, eid) ∈ g.involvedIn ∧ en.name = nm ∧ nm ≠ "") := by
  rw [List.mem_filter, List.mem_dedup, List.mem_filterMap]
  constructor
  · rintro ⟨⟨i, hi, hname⟩, hne⟩
    rcases List.mem_map.mp hi with ⟨pr, hpr, rfl⟩
    obtain ⟨hmem, hp2⟩ := List.mem_filter.mp hpr
    simp only [decide_eq_true_eq] at hp2
    rcases (entityName_eq_some hentn).mp hname with ⟨en, hen, hid, hnm⟩
    refine ⟨en, hen, ?_, hnm, by simpa using hne⟩
    have : pr = (en.id, eid) := Prod.ext hid.symm hp2
    rwa [← this]
  · rintro ⟨en, hen, hinv, hnm, hne⟩
    refine ⟨⟨en.id, List.mem_map.mpr
      ⟨(en.id, eid), List.mem_filter.mpr ⟨hinv, by simp⟩, rfl⟩,
      (entityName_eq_some hentn).mpr ⟨en, hen, rfl, hnm⟩⟩, by simpa using hne⟩

/-- C7: with zero filters, `hippocampus_search_events` returns each stored
Event at most once (exactly once when everything fits in the limit),
ordered by `happened_at` descending (nulls first) and truncated to the
effective limit, and every returned record is the full reconstruction of
its episode: participants split into people/agents, involved entity names,
the bound place, catalyst descriptions, and all (effect, valence,
intensity, target) tuples. -/
theorem search_events_zero_filters
    (g : Graph) (la : Option ℕ)
    (hidn : (g.events.map EventNode.id).Nodup)
    (hpl : ∀ e ∈ g.events, (g.placesOf e.id).length ≤ 1)
    (hentn : (g.entities.map EntityNode.id).Nodup) :
    (searchEventsNoFilters g la).length =
      min (searchLimit la) g.events.length ∧
    (∀ e ∈ g.events,
      ((searchEventsNoFilters g la).filter
        (fun v => v.id = e.id)).length ≤ 1 ∧
      (g.events.length ≤ searchLimit la →
        ((searchEventsNoFilters g la).filter
          (fun v => v.id = e.id)).length = 1)) ∧
    (searchEventsNoFilters g la).Pairwise (fun v w => viewKey w ≤ viewKey v) ∧
    (∀ v ∈ searchEventsNoFilters g la, ∃ e ∈ g.events,
      v.id = e.id ∧ v.title = e.title ∧ v.description = e.description ∧
      v.whenAt = e.happened_at ∧
      (∀ n, n ∈ v.people ↔ ((n, e.id) ∈ g.participatedPersons ∧ n ≠ "")) ∧
      (∀ n, n ∈ v.agents ↔ ((n, e.id) ∈ g.participatedAgents ∧ n ≠ "")) ∧
      (∀ nm, nm ∈ v.what ↔ (∃ en ∈ g.entities,
        (en.id, e.id) ∈ g.involvedIn ∧ en.name = nm ∧ nm ≠ "")) ∧
      v.whereName = (g.placesOf e.id).head? ∧
      (∀ c, c ∈ v.why ↔ ((e.id, c) ∈ g.catalyzedBy ∧ c ≠ "")) ∧
      (∀ tp : String × String × ℚ × String, tp ∈ v.effects ↔
        (∃ f ∈ g.effects, f.eventId = e.id ∧
          tp = (f.summary, f.valence, f.intensity, f.targetId) ∧
          f.summary ≠ ""))) := by
  have hrowlen : (searchRows g).length = g.events.length := searchRows_length hpl
  have hperm := List.perm_insertionSort rowLe (searchRows g)
  have hllen : (List.insertionSort rowLe (searchRows g)).length =
      g.events.length := by rw [hperm.length_eq, hrowlen]
  refine ⟨?_, ?_, ?_, ?_⟩
  · unfold searchEventsNoFilters
    rw [List.length_map, List.length_take, hllen]
  · intro e he
    have hfm : ∀ (t : List SearchRow),
        ((t.map (projectEvent g)).filter (fun v => v.id = e.id)).length =
          (t.filter (fun r => r.event.id = e.id)).length := by
      intro t
      rw [List.filter_map, List.length_map]
      rfl
    have hone : ((List.insertionSort rowLe (searchRows g)).filter
        (fun r => r.event.id = e.id)).length = 1 := by
      rw [(hperm.filter _).length_eq]
      exact rows_filter_one g.events hidn hpl e he
    constructor
    · unfold searchEventsNoFilters
      rw [hfm]
      calc (((List.insertionSort rowLe (searchRows g)).take
              (searchLimit la)).filter (fun r => r.event.id = e.id)).length
          ≤ ((List.insertionSort rowLe (searchRows g)).filter
              (fun r => r.event.id = e.id)).length :=
            ((List.take_sublist _ _).filter _).length_le
        _ = 1 := hone
    · intro hfits
      unfold searchEventsNoFilters
      rw [hfm]
      rw [List.take_of_length_le (by rw [hllen]; exact hfits)]
      exact hone
  · unfold searchEventsNoFilters
    refine List.Pairwise.map _ (fun a b h => h) ?_
    exact List.Pairwise.sublist (List.take_sublist _ _)
      (List.sorted_insertionSort rowLe (searchRows g))
  · intro v hv
    unfold searchEventsNoFilters at hv
    rcases List.mem_map.mp hv with ⟨r, hrt, rfl⟩
    have hrl : r ∈ List.insertionSort rowLe (searchRows g) :=
      (List.take_sublist _ _).subset hrt
    have hrrows : r ∈ searchRows g := hperm.mem_iff.mp hrl
    rcases List.mem_flatMap.mp hrrows with ⟨e, he, hre⟩
    obtain ⟨hev, hplace⟩ := mem_searchRowsOf (hpl e he) hre
    subst hev
    refine ⟨r.event, he, rfl, rfl, rfl, rfl, ?_, ?_, ?_, hplace, ?_, ?_⟩
    · intro n; exact mem_pairProjFst
    · intro n; exact mem_pairProjFst
    · intro nm; exact mem_whatProj hentn
    · intro c; exact mem_pairProjSnd
    · intro tp; exact mem_effectsProj

/-- The store left by one `hippocampus_write_event` call. -/
def gSearch : Graph := (writeEvent "w1" 5 waW Graph.empty).graph

/-- Witness for C7 on the concrete one-event store `gSearch`. -/
theorem search_events_zero_filters_witness :
    ((gSearch.events.map EventNode.id).Nodup ∧
      (∀ e ∈ gSearch.events, (gSearch.placesOf e.id).length ≤ 1) ∧
      (gSearch.entities.map EntityNode.id).Nodup) ∧
    ((searchEventsNoFilters gSearch none).length =
      min (searchLimit none) gSearch.events.length ∧
      (searchEventsNoFilters gSearch none).Pairwise
        (fun v w => viewKey w ≤ viewKey v)) := by
  have h := search_events_zero_filters gSearch none (by decide) (by decide)
    (by decide)
  exact ⟨⟨by decide, by decide, by decide⟩, h.1, h.2.2.1⟩
